import Mathlib

/-!
Shallow embedding of `achievement_sync.py` (an INI achievement-sync watcher)
together with proofs of the specification claims about it.

Files are modelled as lists of newline-terminated lines (every `f.write` in
the program emits exactly one such line, and text-mode reading splits on the
same newlines).  Machine integers are `Nat` with explicit bounds.  Fallible
operations return `Option`.  Python `dict`s keyed by section name are
modelled as association lists with pairwise-distinct keys, which is the
invariant `configparser` guarantees for its section and option tables.
-/

set_option autoImplicit false

namespace AchievementSync

/-! ### Character helpers

Models of CPython character classes used by `configparser`, `bytes.fromhex`
and `str` methods.  `isPyWS` is ASCII whitespace, `isHexChar` the characters
accepted by `bytes.fromhex`, `lcChar` the ASCII case fold performed by
`configparser.optionxform` (`str.lower`) on the keys this program uses.
-/

def isPyWS (c : Char) : Bool :=
  c.toNat == 32 || c.toNat == 9 || c.toNat == 10 || c.toNat == 13 ||
    c.toNat == 11 || c.toNat == 12

def isHexChar (c : Char) : Bool :=
  (decide (48 ≤ c.toNat) && decide (c.toNat ≤ 57)) ||
    (decide (97 ≤ c.toNat) && decide (c.toNat ≤ 102)) ||
    (decide (65 ≤ c.toNat) && decide (c.toNat ≤ 70))

def hexVal (c : Char) : ℕ :=
  if 48 ≤ c.toNat ∧ c.toNat ≤ 57 then c.toNat - 48
  else if 97 ≤ c.toNat then c.toNat - 87
  else c.toNat - 55

def isDigitChar (c : Char) : Bool :=
  decide (48 ≤ c.toNat) && decide (c.toNat ≤ 57)

def lcChar (c : Char) : Char :=
  if 65 ≤ c.toNat ∧ c.toNat ≤ 90 then Char.ofNat (c.toNat + 32) else c

def lowerKey (s : String) : String := ⟨s.data.map lcChar⟩

/-! ### Decimal rendering and parsing

Model of CPython's decimal formatting: `str(n)` for a nonnegative int is the
list of decimal digits, and the f-string spec `{n:05d}` pads it with `'0'`
on the left to width at least 5.  `parseNat` models `int(text)` on the
canonical digit strings this program writes (anything else is a
`ValueError`).
-/

def digitChar : ℕ → Char
  | 0 => '0' | 1 => '1' | 2 => '2' | 3 => '3' | 4 => '4'
  | 5 => '5' | 6 => '6' | 7 => '7' | 8 => '8' | 9 => '9'
  | _ => '0'

def decDigitsAux : ℕ → ℕ → List ℕ
  | 0, _ => []
  | fuel + 1, n =>
    if n < 10 then [n] else decDigitsAux fuel (n / 10) ++ [n % 10]

def decDigits (n : ℕ) : List ℕ := decDigitsAux (n + 1) n

def natToDec (n : ℕ) : String := ⟨(decDigits n).map digitChar⟩

def pad5 (n : ℕ) : String :=
  ⟨List.replicate (5 - (decDigits n).length) '0' ++ (decDigits n).map digitChar⟩

def parseNat (s : String) : Option ℕ :=
  if s.data ≠ [] ∧ s.data.all isDigitChar = true then
    some (s.data.foldl (fun acc c => 10 * acc + (c.toNat - 48)) 0)
  else none

/-! ### Time codec

Model of `IniFileHandler.parse_time_value`.  `fromhexAux` models
`bytes.fromhex` (ASCII whitespace is skipped between byte pairs, each byte is
two consecutive hex digits); the `<I` `struct.unpack` succeeds only on
exactly four bytes and reads them little-endian.  `ValueError` and
`struct.error` are both caught and mapped to `None`.
-/

def fromhexAux : List Char → Option (List ℕ)
  | [] => some []
  | [c] => if isPyWS c then some [] else none
  | c :: c₂ :: cs =>
    if isPyWS c then fromhexAux (c₂ :: cs)
    else if isHexChar c && isHexChar c₂ then
      (fromhexAux cs).map (fun bs => (16 * hexVal c + hexVal c₂) :: bs)
    else none

/-- Converts the first 8 hex characters of a time string to a little-endian
unsigned 32-bit integer, returning `none` on any decode failure, exactly as
`parse_time_value` returns `None`. -/
def parse_time_value (s : String) : Option ℕ :=
  match fromhexAux (s.data.take 8) with
  | some [b0, b1, b2, b3] => some (b0 + 256 * b1 + 65536 * b2 + 16777216 * b3)
  | _ => none

/-! ### Configparser state

A parsed configuration is an association list of sections in file order,
each holding its options in insertion order with keys already put through
`optionxform` (ASCII lower case).  `configparser` guarantees section names
and option keys are pairwise distinct; theorems assume that where needed.
-/

abbrev Options := List (String × String)

abbrev Config := List (String × Options)

/-- Raw stored value of an option in a single section's option table, with
the key put through `optionxform`.  This is a building block only: the
program's `has_option` and `get` also consult the `[DEFAULT]` section and
run `BasicInterpolation`, and are modelled by `pyHasOption` and `pyGet`
below. -/
def getOpt (opts : Options) (k : String) : Option String :=
  (opts.find? (fun p => p.1 == lowerKey k)).map (fun p => p.2)

def hasSection (c : Config) (sec : String) : Bool :=
  c.any (fun s => s.1 == sec)

def addSection (c : Config) (sec : String) : Config := c ++ [(sec, [])]

def setOpt (opts : Options) (k v : String) : Options :=
  if opts.any (fun p => p.1 == k) then
    opts.map (fun p => if p.1 == k then (k, v) else p)
  else opts ++ [(k, v)]

def cfgSet (c : Config) (sec key v : String) : Config :=
  c.map (fun s => if s.1 == sec then (s.1, setOpt s.2 (lowerKey key) v) else s)

def cfgFind (c : Config) (sec : String) : Option Options :=
  (c.find? (fun s => s.1 == sec)).map (fun s => s.2)

/-- Raw stored value of an option in a named section, without `[DEFAULT]`
fallback or interpolation.  `ConfigParser.get` itself is modelled by
`pyGet`; this accessor is used to state which value a section's own table
carries. -/
def cfgGet (c : Config) (sec key : String) : Option String :=
  (cfgFind c sec).bind (fun opts => getOpt opts key)

/-! ### BasicInterpolation and DEFAULT fallback

`ConfigParser.get` looks an option up in the chain map of the section's own
table over the `[DEFAULT]` table (`interpEnv`), then rewrites the value with
`BasicInterpolation._interpolate_some`: `%%` becomes `%`, `%(name)s` is
replaced by the looked-up raw value of `name` (recursively interpolated when
it contains `%`, up to depth 10, `InterpolationDepthError` beyond), a `%`
followed by anything else raises `InterpolationSyntaxError`, and a reference
to an absent name raises `InterpolationMissingOptionError`.  All the error
cases are collapsed to `none`/`GetResult.error`; a `fallback=` argument does
not catch them.  The scanner carries structural fuel of one unit per
consumed character, so `interpScanF` with fuel beyond the list length never
hits the fuel floor. -/

/-- The key part of CPython's `%\(([^)]+)\)s` reference syntax, applied just
past `"%("`: the non-empty run up to the first `')'`, which must be followed
by `'s'`. -/
def extractKey (l : List Char) : Option (List Char × List Char) :=
  let name := l.takeWhile (fun c => !(c == ')'))
  let rest := l.dropWhile (fun c => !(c == ')'))
  if name = [] then none
  else
    match rest with
    | ')' :: 's' :: tail => some (name, tail)
    | _ => none

def interpScanF :
    ℕ → Options → (List Char → Option (List Char)) → List Char →
      Option (List Char)
  | 0, _, _, _ => none
  | _ + 1, _, _, [] => some []
  | fuel + 1, env, recur, c :: rest =>
    if c = '%' then
      match rest with
      | [] => none
      | c₂ :: rest₂ =>
        if c₂ = '%' then
          (interpScanF fuel env recur rest₂).map (fun t => '%' :: t)
        else if c₂ = '(' then
          match extractKey rest₂ with
          | none => none
          | some (name, tail) =>
            match env.find? (fun p => p.1 == lowerKey ⟨name⟩) with
            | none => none
            | some q =>
              match (if q.2.data.any (fun d => d == '%') then recur q.2.data
                     else some q.2.data) with
              | none => none
              | some iv =>
                (interpScanF fuel env recur tail).map (fun t => iv ++ t)
        else none
    else (interpScanF fuel env recur rest).map (fun t => c :: t)

def interpDepth : ℕ → Options → List Char → Option (List Char)
  | 0, _, _ => none
  | d + 1, env, v => interpScanF (v.length + 1) env (interpDepth d env) v

/-- `BasicInterpolation.before_get` over the lookup environment `env`:
`some` is the rewritten value, `none` any of the interpolation errors. -/
def interpolate (env : Options) (v : String) : Option String :=
  (interpDepth 10 env v.data).map (fun l => ⟨l⟩)

/-- The option lookup chain of a `get` in a given section: the section's own
table first, then the `[DEFAULT]` table. -/
def interpEnv (defaults own : Options) : Options := own ++ defaults

/-- `ConfigParser.has_option`: present in the section's own table or in the
`[DEFAULT]` table. -/
def pyHasOption (defaults own : Options) (key : String) : Bool :=
  (interpEnv defaults own).any (fun p => p.1 == lowerKey key)

/-- Outcome of `ConfigParser.get`: the option is absent from the chain map
(`missing`, so a `fallback=` value or `NoOptionError` applies), an
interpolation error escapes (`error`), or the interpolated value is
returned. -/
inductive GetResult where
  | missing : GetResult
  | error : GetResult
  | value : String → GetResult
deriving DecidableEq

def interpGet2 : Option String → GetResult
  | none => GetResult.error
  | some v => GetResult.value v

def interpGet (env : Options) : Option (String × String) → GetResult
  | none => GetResult.missing
  | some p => interpGet2 (interpolate env p.2)

/-- Model of `ConfigParser.get(section, option)` given the section's own
option table and the `[DEFAULT]` table. -/
def pyGet (defaults own : Options) (key : String) : GetResult :=
  interpGet (interpEnv defaults own)
    ((interpEnv defaults own).find? (fun p => p.1 == lowerKey key))

/-! ### Source-format parser -/

structure TrophyData where
  achieved : ℕ
  unlockTime : ℕ
deriving DecidableEq

/-- Models `section.startswith('Trophy_')`. -/
def hasTrophyPfx (s : String) : Bool :=
  decide (s.data.take 7 = ['T', 'r', 'o', 'p', 'h', 'y', '_'])

/-- Loop body of `IniFileHandler.read_stat_ini` for one candidate section.
The outer `Option` is the exception channel: `none` when the `State` or
`Time` `config.get` raises (an interpolation error, or the unreachable
`NoOptionError`), which aborts the whole parse; `some none` when the
section is merely skipped.  `has_option` and `get` both fall back to the
`[DEFAULT]` table, and `get` interpolates, so the checks run on the
resolved values. -/
def readTrophySection (defaults : Options) (s : String × Options) :
    Option (Option (String × TrophyData)) :=
  if hasTrophyPfx s.1 then
    if pyHasOption defaults s.2 ("State") && pyHasOption defaults s.2 ("Time")
    then
      match pyGet defaults s.2 ("State") with
      | GetResult.value st =>
        match pyGet defaults s.2 ("Time") with
        | GetResult.value tm =>
          if st = "" ∨ tm = "" then some none
          else if tm.data.length < 8 then some none
          else
            match parse_time_value tm with
            | some t =>
              some (some (s.1, ⟨if st.data.take 2 = ['0', '1'] then 1 else 0, t⟩))
            | none => some none
        | _ => none
      | _ => none
    else some none
  else some none

/-- Model of `IniFileHandler.read_stat_ini` on the source configuration as
`config.read` leaves it: the `[DEFAULT]` option table and the named sections
in file order (`config.sections()` excludes `DEFAULT`).  A skipped section
only drops itself, but a raising `config.get` propagates and the whole parse
fails (`none`), to be caught only by `sync_achievements`. -/
def read_stat_ini (defaults : Options) :
    Config → Option (List (String × TrophyData))
  | [] => some []
  | s :: rest =>
    match readTrophySection defaults s with
    | none => none
    | some none => read_stat_ini defaults rest
    | some (some r) => (read_stat_ini defaults rest).map (fun l => r :: l)

/-- The per-section outcome in the interpolation-free case: what
`readTrophySection` reduces to when the `[DEFAULT]` table is empty and no
option value contains `%`, so that `get` returns the stored value and never
raises. -/
def readTrophySectionPlain (s : String × Options) :
    Option (String × TrophyData) :=
  if hasTrophyPfx s.1 then
    match getOpt s.2 ("State"), getOpt s.2 ("Time") with
    | some st, some tm =>
      if st = "" ∨ tm = "" then none
      else if tm.data.length < 8 then none
      else
        match parse_time_value tm with
        | some t =>
          some (s.1, ⟨if st.data.take 2 = ['0', '1'] then 1 else 0, t⟩)
        | none => none
    | _, _ => none
  else none

/-- The whole-parse outcome in the interpolation-free, defaults-free case;
`read_stat_ini` reduces to `some` of it there. -/
def readStatPlain (cfg : Config) : List (String × TrophyData) :=
  cfg.filterMap readTrophySectionPlain

/-! ### Change tracker

Model of the new-trophy loop in `sync_achievements`: walk the current
identifiers in order, appending unseen ones to `new_trophies` and adding
them to the known set (modelled as a list observed only through
membership). -/

def classify (current : List String) (known : List String) :
    List String × List String :=
  current.foldl
    (fun acc name =>
      if name ∈ acc.2 then acc else (acc.1 ++ [name], acc.2 ++ [name]))
    ([], known)

/-! ### Target-format writer

`sync_achievements` first copies the prior target file into a
`ConfigParser`, overwrites the four fields of every trophy present in the
source, then writes the file manually: the `[SteamAchievements]` header, the
indexed identifier lines, the count line, a blank line, and one block per
trophy.  The writing loop reads the four fields back with `config.get`,
which interpolates and falls back to the prior file's `[DEFAULT]` table —
but every read hits a freshly set `%`-free digit string, so neither the
`missing` nor the `error` branch of `getWritten` is reachable. -/

def updTrophy (c : Config) (name : String) (d : TrophyData) : Config :=
  cfgSet (cfgSet (cfgSet (cfgSet
      (if hasSection c name then c else addSection c name)
      name ("Achieved") (natToDec d.achieved))
      name ("CurProgress") ("0"))
      name ("MaxProgress") ("0"))
    name ("UnlockTime") (natToDec d.unlockTime)

def buildTargetCfg (prior : Config) (src : List (String × TrophyData)) :
    Config :=
  src.foldl (fun c p => updTrophy c p.1 p.2) prior

def indexLines : ℕ → List String → List String
  | _, [] => []
  | i, n :: ns => (pad5 i ++ "=" ++ n) :: indexLines (i + 1) ns

/-- The string `target_config.get(name, key)` evaluates to inside the
writing loop.  The `missing` and `error` branches are unreachable there
(the four keys were just set to `%`-free digit strings). -/
def getWritten (defaults : Options) (c : Config) (name key : String) :
    String :=
  match pyGet defaults ((cfgFind c name).getD []) key with
  | GetResult.value v => v
  | _ => ""

def sectionLines (defaults : Options) (c : Config) (name : String) :
    List String :=
  ["[" ++ name ++ "]",
   "Achieved=" ++ getWritten defaults c name ("Achieved"),
   "CurProgress=" ++ getWritten defaults c name ("CurProgress"),
   "MaxProgress=" ++ getWritten defaults c name ("MaxProgress"),
   "UnlockTime=" ++ getWritten defaults c name ("UnlockTime"),
   ""]

/-- The lines written by `sync_achievements` for source trophies `src`,
given the `[DEFAULT]` table and the sections read back from the previous
target file. -/
def syncWriteLines (priorDefaults : Options) (prior : Config)
    (src : List (String × TrophyData)) : List String :=
  "[SteamAchievements]" :: indexLines 0 (src.map Prod.fst)
    ++ ["Count=" ++ natToDec src.length, ""]
    ++ (src.map Prod.fst).flatMap
        (fun n => sectionLines priorDefaults (buildTargetCfg prior src) n)

/-- Target-file layout transcribed from the specification claim's wording:
index header, indexed identifier lines in order, a count line after them, a
blank line, then for each trophy its section header and the four fixed
fields with both progress fields written as `0`, then a blank line.  It does
not mention the prior target file at all. -/
def targetSpecLines (src : List (String × TrophyData)) : List String :=
  "[SteamAchievements]" :: indexLines 0 (src.map Prod.fst)
    ++ ["Count=" ++ natToDec src.length, ""]
    ++ src.flatMap (fun p =>
        ["[" ++ p.1 ++ "]",
         "Achieved=" ++ natToDec p.2.achieved,
         "CurProgress=0",
         "MaxProgress=0",
         "UnlockTime=" ++ natToDec p.2.unlockTime,
         ""])

/-- The option table a written trophy block parses back to. -/
def trophyOpts (p : String × TrophyData) : Options :=
  [(("achieved" : String), natToDec p.2.achieved),
   (("curprogress" : String), "0"),
   (("maxprogress" : String), "0"),
   (("unlocktime" : String), natToDec p.2.unlockTime)]

/-! ### Reading a target file back

Line-level model of `configparser.read` restricted to what the files this
program writes can contain: stripped blank lines are skipped, full-line
comments are skipped, a line matching `\[(.+)\]` (greedily, so the header
runs to the last `]`) opens a section, and otherwise the line is split at
its first `=` or `:`, the key is right-stripped and lower-cased and the
value stripped.  Continuation lines and the strict-mode duplicate checks
cannot occur in those files and are not modelled. -/

def stripChars (l : List Char) : List Char :=
  ((l.dropWhile isPyWS).reverse.dropWhile isPyWS).reverse

def matchSectionLine (v : List Char) : Option String :=
  match v with
  | c :: rest =>
    if c = '[' then
      match rest.reverse.dropWhile (fun d => !(d == ']')) with
      | [] => none
      | _ :: revHeader =>
        if revHeader.reverse = [] then none else some ⟨revHeader.reverse⟩
    else none
  | [] => none

def isDelimChar (c : Char) : Bool := c == '=' || c == ':'

def splitDelim : List Char → Option (List Char × List Char)
  | [] => none
  | c :: cs =>
    if isDelimChar c then some ([], cs)
    else (splitDelim cs).map (fun p => (c :: p.1, p.2))

def matchOptionLine (v : List Char) : Option (String × String) :=
  (splitDelim v).map fun p =>
    (lowerKey ⟨(p.1.reverse.dropWhile isPyWS).reverse⟩, ⟨stripChars p.2⟩)

def flushCur : Option (String × Options) → Config
  | some s => [s]
  | none => []

def parseLinesAux : List String → Option (String × Options) → Config
  | [], cur => flushCur cur
  | line :: rest, cur =>
    let v := stripChars line.data
    if v = [] then parseLinesAux rest cur
    else if v.head? = some '#' ∨ v.head? = some ';' then parseLinesAux rest cur
    else
      match matchSectionLine v with
      | some name => flushCur cur ++ parseLinesAux rest (some (name, []))
      | none =>
        match matchOptionLine v with
        | some kv =>
          match cur with
          | some s => parseLinesAux rest (some (s.1, s.2 ++ [kv]))
          | none => parseLinesAux rest none
        | none => parseLinesAux rest cur

def parseLines (lines : List String) : Config := parseLinesAux lines none

/-- The state `config.read` leaves behind: options of any section named
`DEFAULT` go to the `_defaults` table, the remaining sections keep file
order (`has_section` and `sections()` see only the latter). -/
def readConfig (lines : List String) : Options × Config :=
  let raw := parseLines lines
  ((raw.filter (fun s => s.1 == ("DEFAULT" : String))).flatMap
      (fun s => s.2),
   raw.filter (fun s => !(s.1 == ("DEFAULT" : String))))

/-- The identifier-collecting loop of `load_existing_trophies`.  A missing
positional key means `fallback=None`, which is falsy and merely skipped; a
raising `get` (interpolation error, not caught by `fallback=`) aborts the
loop, and the enclosing `try` keeps the identifiers added so far. -/
def loadLoopAux (defaults own : Options) :
    List ℕ → List String → List String
  | [], acc => acc
  | i :: rest, acc =>
    match pyGet defaults own (pad5 i) with
    | GetResult.error => acc
    | GetResult.missing => loadLoopAux defaults own rest acc
    | GetResult.value name =>
      if name = "" then loadLoopAux defaults own rest acc
      else loadLoopAux defaults own rest (acc ++ [name])

/-- Model of `IniFileHandler.load_existing_trophies`: read the target file,
fetch `Count` from the `[SteamAchievements]` section with
`config.getint(..., fallback=0)` (missing gives 0, a `ValueError` on the
interpolated value or a raising `get` is caught having added nothing), then
collect the truthy `config.get` values of the positional keys in index
order.  The identifiers are returned in the order they are added to
`known_trophies`. -/
def load_existing_trophies (fileLines : List String) : List String :=
  let dc := readConfig fileLines
  if hasSection dc.2 ("SteamAchievements") then
    let own := (cfgFind dc.2 ("SteamAchievements")).getD []
    match pyGet dc.1 own ("Count") with
    | GetResult.error => []
    | GetResult.missing => []
    | GetResult.value v =>
      match parseNat v with
      | none => []
      | some count => loadLoopAux dc.1 own (List.range count) []
  else []

/-! ### Sync orchestrator -/

structure SyncState where
  known : List String
  target : Option (List String)
deriving DecidableEq

def priorConfig : Option (List String) → Options × Config
  | some lines => readConfig lines
  | none => ([], [])

/-- One pass of `IniFileHandler.sync_achievements` on the source
configuration as read: if `read_stat_ini` raises, the outer `try` catches
the exception and the pass returns with nothing changed; if the source
yields no trophies the pass returns leaving the state untouched; otherwise
it classifies the identifiers against the known set, rewrites the target
file from the source trophies, and returns the newly unlocked identifiers
(the ones notifications are sent for). -/
def sync_achievements (sourceDefaults : Options) (sourceCfg : Config)
    (st : SyncState) : SyncState × List String :=
  match read_stat_ini sourceDefaults sourceCfg with
  | none => (st, [])
  | some src =>
    if src = [] then (st, [])
    else
      let cl := classify (src.map Prod.fst) st.known
      ({ known := cl.2,
         target := some (syncWriteLines (priorConfig st.target).1
           (priorConfig st.target).2 src) }, cl.1)

/-! ### Debounce

Model of `IniFileHandler._handle_change`.  Event timestamps are rationals
(seconds); `last_modified` starts at `0` and is updated only when an event
is accepted, and an event for the watched source path is accepted exactly
when it is not within `0.5` seconds of the last accepted one. -/

def handle_change (srcPath : String) (lastModified : ℚ) (evPath : String)
    (t : ℚ) : Bool × ℚ :=
  if evPath = srcPath then
    if t - lastModified < 1 / 2 then (false, lastModified) else (true, t)
  else (false, lastModified)

def runEvents (srcPath : String) : ℚ → List (String × ℚ) → ℕ
  | _, [] => 0
  | last, ev :: rest =>
    let r := handle_change srcPath last ev.1 ev.2
    (if r.1 then 1 else 0) + runEvents srcPath r.2 rest

/-! ### Well-formed trophy identifiers

A trophy identifier as the source parser can produce it: it carries the
`Trophy_` section-name convention; the extra conditions (printable ASCII
other than `%`, no trailing blank) delimit the identifiers whose round trip
through the target file is exact, since `configparser` strips option values
on read and `BasicInterpolation` raises on a `%` in a value fetched back by
`config.get`. -/

def goodId (s : String) : Prop :=
  s.data.take 7 = ['T', 'r', 'o', 'p', 'h', 'y', '_'] ∧
    (∀ c ∈ s.data, 32 ≤ c.toNat ∧ c.toNat ≤ 126 ∧ c.toNat ≠ 37) ∧
    s.data.getLast? ≠ some ' '

instance (s : String) : Decidable (goodId s) := by
  unfold goodId
  infer_instance

/-- The option list that the index lines of the written target file parse
back to, starting at index `i`: used to state the round-trip lemmas. -/
def ixOpts : ℕ → List String → Options
  | _, [] => []
  | i, n :: ns => (pad5 i, n) :: ixOpts (i + 1) ns

/-- Two-step structural induction matching the recursion of `fromhexAux`. -/
def twoStepInduction {motive : List Char → Prop} (h0 : motive [])
    (h1 : ∀ c, motive [c])
    (h2 : ∀ c c₂ cs, motive (c₂ :: cs) → motive cs → motive (c :: c₂ :: cs)) :
    ∀ l, motive l
  | [] => h0
  | [c] => h1 c
  | c :: c₂ :: cs =>
    h2 c c₂ cs (twoStepInduction h0 h1 h2 (c₂ :: cs)) (twoStepInduction h0 h1 h2 cs)

/-! ## Theorems -/

/-! ### Character and digit lemmas -/

theorem hexChar_not_ws {c : Char} (h : isHexChar c = true) : isPyWS c = false := by
  simp only [isHexChar, Bool.or_eq_true, Bool.and_eq_true, decide_eq_true_eq] at h
  simp only [isPyWS, Bool.or_eq_false_iff, beq_eq_false_iff_ne, ne_eq]
  omega

theorem hexVal_lt {c : Char} (h : isHexChar c = true) : hexVal c < 16 := by
  simp only [isHexChar, Bool.or_eq_true, Bool.and_eq_true, decide_eq_true_eq] at h
  simp only [hexVal]
  split <;> [omega; (split <;> omega)]

theorem digitChar_toNat {d : ℕ} (h : d < 10) : (digitChar d).toNat = 48 + d := by
  interval_cases d <;> rfl

theorem decDigitsAux_irrel :
    ∀ n f1 f2 : ℕ, n < f1 → n < f2 → decDigitsAux f1 n = decDigitsAux f2 n := by
  intro n
  induction n using Nat.strong_induction_on with
  | _ n ih =>
    intro f1 f2 h1 h2
    obtain ⟨fa, rfl⟩ : ∃ fa, f1 = fa + 1 := ⟨f1 - 1, by omega⟩
    obtain ⟨fb, rfl⟩ : ∃ fb, f2 = fb + 1 := ⟨f2 - 1, by omega⟩
    simp only [decDigitsAux]
    by_cases hn : n < 10
    · rw [if_pos hn, if_pos hn]
    · rw [if_neg hn, if_neg hn]
      have hdiv : n / 10 < n := Nat.div_lt_self (by omega) (by omega)
      rw [ih (n / 10) hdiv fa fb (by omega) (by omega)]

theorem decDigits_eq (n : ℕ) :
    decDigits n = if n < 10 then [n] else decDigits (n / 10) ++ [n % 10] := by
  by_cases hn : n < 10
  · rw [if_pos hn]
    show decDigitsAux (n + 1) n = [n]
    simp only [decDigitsAux, if_pos hn]
  · rw [if_neg hn]
    show decDigitsAux (n + 1) n = decDigitsAux (n / 10 + 1) (n / 10) ++ [n % 10]
    have hdiv : n / 10 < n := Nat.div_lt_self (by omega) (by omega)
    have h1 : decDigitsAux (n + 1) n = decDigitsAux n (n / 10) ++ [n % 10] := by
      simp only [decDigitsAux, if_neg hn]
    rw [h1, decDigitsAux_irrel (n / 10) n (n / 10 + 1) hdiv (by omega)]

theorem decDigits_lt10 : ∀ n : ℕ, ∀ d ∈ decDigits n, d < 10 := by
  intro n
  induction n using Nat.strong_induction_on with
  | _ n ih =>
    rw [decDigits_eq]
    split
    · intro d hd
      simp only [List.mem_singleton] at hd
      omega
    · intro d hd
      rcases List.mem_append.1 hd with h | h
      · exact ih (n / 10) (Nat.div_lt_self (by omega) (by omega)) d h
      · simp only [List.mem_singleton] at h
        omega

theorem decDigits_ne_nil (n : ℕ) : decDigits n ≠ [] := by
  rw [decDigits_eq]
  split
  · simp
  · simp

/-- Folding the decimal-parse step over the printed digits recovers the
number. -/
theorem decDigits_foldl (n : ℕ) : ∀ a : ℕ,
    ((decDigits n).map digitChar).foldl (fun acc c => 10 * acc + (c.toNat - 48)) a =
      a * 10 ^ (decDigits n).length + n := by
  induction n using Nat.strong_induction_on with
  | _ n ih =>
    intro a
    rw [decDigits_eq]
    split
    · next h =>
      simp only [List.map_cons, List.map_nil, List.foldl_cons, List.foldl_nil,
        List.length_singleton, pow_one, digitChar_toNat h]
      omega
    · next h =>
      rw [List.map_append, List.foldl_append,
        ih (n / 10) (Nat.div_lt_self (by omega) (by omega)) a]
      have hm : (digitChar (n % 10)).toNat = 48 + n % 10 := digitChar_toNat (by omega)
      simp only [List.map_cons, List.map_nil, List.foldl_cons, List.foldl_nil, hm,
        List.length_append, List.length_singleton]
      rw [pow_succ]
      have := Nat.div_add_mod n 10
      ring_nf
      omega

theorem decDigits_all_digit (n : ℕ) :
    ((decDigits n).map digitChar).all isDigitChar = true := by
  rw [List.all_eq_true]
  intro c hc
  rcases List.mem_map.1 hc with ⟨d, hd, rfl⟩
  have := decDigits_lt10 n d hd
  simp only [isDigitChar, Bool.and_eq_true, decide_eq_true_eq, digitChar_toNat this]
  omega

theorem parseNat_natToDec (n : ℕ) : parseNat (natToDec n) = some n := by
  simp only [parseNat, natToDec, ne_eq]
  rw [if_pos]
  · have := decDigits_foldl n 0
    simp only [zero_mul, zero_add] at this
    exact congrArg some this
  · refine ⟨?_, decDigits_all_digit n⟩
    simp only [List.map_eq_nil_iff]
    exact decDigits_ne_nil n

theorem pad5_data (n : ℕ) :
    (pad5 n).data =
      List.replicate (5 - (decDigits n).length) '0' ++ (decDigits n).map digitChar :=
  rfl

theorem pad5_all_digit (n : ℕ) : (pad5 n).data.all isDigitChar = true := by
  rw [pad5_data, List.all_append, Bool.and_eq_true]
  refine ⟨?_, decDigits_all_digit n⟩
  rw [List.all_eq_true]
  intro c hc
  rw [List.eq_of_mem_replicate hc]
  decide

theorem parseNat_pad5 (n : ℕ) : parseNat (pad5 n) = some n := by
  simp only [parseNat, ne_eq]
  rw [if_pos]
  · rw [pad5_data, List.foldl_append]
    have hz : ∀ (k : ℕ),
        (List.replicate k '0').foldl (fun acc c => 10 * acc + (c.toNat - 48)) 0 = 0 := by
      intro k
      induction k with
      | zero => rfl
      | succ k ih => simpa [List.replicate_succ] using ih
    rw [hz]
    have := decDigits_foldl n 0
    simp only [zero_mul, zero_add] at this
    exact congrArg some this
  · constructor
    · rw [pad5_data]
      simp only [List.append_eq_nil, List.map_eq_nil_iff, not_and]
      intro _
      exact decDigits_ne_nil n
    · exact pad5_all_digit n

theorem pad5_injective {a b : ℕ} (h : pad5 a = pad5 b) : a = b := by
  have ha := parseNat_pad5 a
  have hb := parseNat_pad5 b
  rw [h, hb] at ha
  exact Option.some.inj ha.symm

/-! ### Time codec lemmas -/

theorem fromhexAux_le {l : List Char} :
    ∀ {bs : List ℕ}, fromhexAux l = some bs → 2 * bs.length ≤ l.length := by
  induction l using twoStepInduction with
  | h0 =>
    intro bs h
    simp only [fromhexAux, Option.some.injEq] at h
    subst h
    simp
  | h1 c =>
    intro bs h
    simp only [fromhexAux] at h
    split at h
    · simp only [Option.some.injEq] at h
      subst h
      simp
    · exact absurd h (by simp)
  | h2 c c₂ cs ih1 ih2 =>
    intro bs h
    simp only [fromhexAux] at h
    split at h
    · have h2b := ih1 h
      simp only [List.length_cons] at h2b ⊢
      omega
    · split at h
      · rcases Option.map_eq_some'.1 h with ⟨bs', hbs', rfl⟩
        have := ih2 hbs'
        simp only [List.length_cons]
        omega
      · exact absurd h (by simp)

theorem fromhexAux_tight {l : List Char} :
    ∀ {bs : List ℕ}, fromhexAux l = some bs → l.length ≤ 2 * bs.length →
      l.all isHexChar = true ∧ l.length = 2 * bs.length := by
  induction l using twoStepInduction with
  | h0 =>
    intro bs h _
    simp only [fromhexAux, Option.some.injEq] at h
    subst h
    simp
  | h1 c =>
    intro bs h hle
    simp only [fromhexAux] at h
    split at h
    · simp only [Option.some.injEq] at h
      subst h
      simp at hle
    · exact absurd h (by simp)
  | h2 c c₂ cs ih1 ih2 =>
    intro bs h hle
    simp only [fromhexAux] at h
    split at h
    · exfalso
      have h2b := fromhexAux_le h
      simp only [List.length_cons] at hle h2b
      omega
    · split at h
      · next hhex =>
        rcases Option.map_eq_some'.1 h with ⟨bs', hbs', rfl⟩
        simp only [List.length_cons] at hle ⊢
        have hcs := ih2 hbs' (by omega)
        rw [Bool.and_eq_true] at hhex
        obtain ⟨hx1, hx2⟩ := hhex
        refine ⟨?_, by omega⟩
        simp only [List.all_cons, hx1, hx2, hcs.1, Bool.and_self]
      · exact absurd h (by simp)

theorem fromhexAux_complete {l : List Char} (hhex : l.all isHexChar = true)
    (heven : l.length % 2 = 0) :
    ∃ bs, fromhexAux l = some bs ∧ 2 * bs.length = l.length := by
  induction l using twoStepInduction with
  | h0 => exact ⟨[], rfl, rfl⟩
  | h1 c => simp at heven
  | h2 c c₂ cs ih1 ih2 =>
    simp only [List.all_cons, Bool.and_eq_true] at hhex
    rcases hhex with ⟨hx1, hx2, hxs⟩
    simp only [List.length_cons] at heven
    rcases ih2 hxs (by omega) with ⟨bs, hbs, hlen⟩
    refine ⟨(16 * hexVal c + hexVal c₂) :: bs, ?_, ?_⟩
    · simp only [fromhexAux, hexChar_not_ws hx1, Bool.false_eq_true, if_false, hx1, hx2,
        Bool.and_self, if_true, hbs, Option.map_some']
    · simp only [List.length_cons]
      omega

theorem fromhexAux_bytes_lt {l : List Char} :
    ∀ {bs : List ℕ}, fromhexAux l = some bs → ∀ b ∈ bs, b < 256 := by
  induction l using twoStepInduction with
  | h0 =>
    intro bs h
    simp only [fromhexAux, Option.some.injEq] at h
    subst h
    simp
  | h1 c =>
    intro bs h
    simp only [fromhexAux] at h
    split at h
    · simp only [Option.some.injEq] at h
      subst h
      simp
    · exact absurd h (by simp)
  | h2 c c₂ cs ih1 ih2 =>
    intro bs h
    simp only [fromhexAux] at h
    split at h
    · exact ih1 h
    · split at h
      · next hhex =>
        rcases Option.map_eq_some'.1 h with ⟨bs', hbs', rfl⟩
        rw [Bool.and_eq_true] at hhex
        obtain ⟨hx1, hx2⟩ := hhex
        intro b hb
        rcases List.mem_cons.1 hb with rfl | hb
        · have := hexVal_lt hx1
          have := hexVal_lt hx2
          omega
        · exact ih2 hbs' b hb
      · exact absurd h (by simp)

/-- `parse_time_value` succeeds exactly on inputs whose first 8 characters
are 8 hexadecimal digits. -/
theorem parse_time_value_some_iff (s : String) :
    (∃ v, parse_time_value s = some v) ↔
      8 ≤ s.data.length ∧ (s.data.take 8).all isHexChar = true := by
  constructor
  · rintro ⟨v, hv⟩
    simp only [parse_time_value] at hv
    split at hv
    · next b0 b1 b2 b3 heq =>
      have hle := fromhexAux_le heq
      have hlen8 : (s.data.take 8).length ≤ 8 := by
        simp [List.length_take]
      have htight := fromhexAux_tight heq
        (by simp only [List.length_cons, List.length_nil] at hle ⊢; omega)
      rcases htight with ⟨hall, hlen⟩
      simp only [List.length_cons, List.length_nil] at hlen
      have h8 : (s.data.take 8).length = 8 := by omega
      rw [List.length_take] at h8
      exact ⟨by omega, hall⟩
    · exact absurd hv (by simp)
  · rintro ⟨hlen, hall⟩
    have h8 : (s.data.take 8).length = 8 := by
      rw [List.length_take]
      omega
    rcases fromhexAux_complete hall (by omega) with ⟨bs, hbs, hblen⟩
    have hb4 : bs.length = 4 := by omega
    match bs, hb4 with
    | [b0, b1, b2, b3], _ =>
      exact ⟨b0 + 256 * b1 + 65536 * b2 + 16777216 * b3,
        by simp only [parse_time_value, hbs]⟩

theorem parse_time_value_lt {s : String} {v : ℕ}
    (h : parse_time_value s = some v) : v < 2 ^ 32 := by
  simp only [parse_time_value] at h
  split at h
  · next b0 b1 b2 b3 heq =>
    have hb := fromhexAux_bytes_lt heq
    simp only [Option.some.injEq] at h
    have h0 := hb b0 (by simp)
    have h1 := hb b1 (by simp)
    have h2 := hb b2 (by simp)
    have h3 := hb b3 (by simp)
    omega
  · exact absurd h (by simp)

/-! ### Claim C1 and C10: the time codec -/

/-- Claim C1 as stated is false: on `"B0BA866959"` the decoder does truncate
to `"B0BA8669"`, read the bytes `B0 BA 86 69` and combine them
little-endian, but the resulting value is `0x6986BAB0` = 1770437296, not
1769854640. -/
theorem c1_decode_example_refuted :
    parse_time_value ("B0BA866959") ≠ some 1769854640 := by
  decide

/-- Claim C1, amended: for the input string `"B0BA866959"`, the time decoder
truncates to the first 8 hex characters `"B0BA8669"`, interprets them as the
bytes `B0 BA 86 69`, reinterprets those bytes as a little-endian unsigned
32-bit integer, and returns exactly 1770437296 (`0x6986BAB0`). -/
theorem c1_decode_example_amended :
    parse_time_value ("B0BA866959") = some 1770437296 := by
  decide

/-- Claim C10: the time decoder is total, returns values below `2 ^ 32`,
and returns the failure value exactly when the first 8 characters of the
input are not 4 valid hexadecimal byte pairs (8 hex digits). -/
theorem c10_decode_total (s : String) :
    (∀ v, parse_time_value s = some v → v < 2 ^ 32) ∧
      (parse_time_value s = none ↔
        ¬(8 ≤ s.data.length ∧ (s.data.take 8).all isHexChar = true)) := by
  constructor
  · intro v hv
    exact parse_time_value_lt hv
  · rw [← parse_time_value_some_iff]
    cases h : parse_time_value s with
    | none => simp [h]
    | some v => simp [h]

/-- Witness for C10 at the concrete input `"B0BA866959"`: the hypothesis of
the bound is discharged by the evaluated decoder. -/
theorem c10_decode_total_witness : 1770437296 < 2 ^ 32 :=
  (c10_decode_total ("B0BA866959")).1 1770437296 (by decide)

/-! ### Change-tracker lemmas -/

theorem classify_go_new (current : List String) :
    ∀ (new known : List String), current.Nodup →
      (current.foldl
        (fun acc name =>
          if name ∈ acc.2 then acc else (acc.1 ++ [name], acc.2 ++ [name]))
        (new, known)).1 =
        new ++ current.filter (fun n => decide (n ∉ known)) := by
  induction current with
  | nil =>
    intro new known _
    simp
  | cons n rest ih =>
    intro new known hnd
    rcases List.nodup_cons.1 hnd with ⟨hn, hnd2⟩
    simp only [List.foldl_cons, List.filter_cons]
    by_cases hmem : n ∈ known
    · rw [if_pos hmem, ih new known hnd2]
      simp [hmem]
    · rw [if_neg hmem, ih (new ++ [n]) (known ++ [n]) hnd2]
      have hfil : rest.filter (fun m => decide (m ∉ known ++ [n])) =
          rest.filter (fun m => decide (m ∉ known)) := by
        apply List.filter_congr
        intro m hm
        have hne : m ≠ n := fun h => hn (h ▸ hm)
        simp [List.mem_append, hne, hmem]
      rw [hfil]
      simp [hmem, List.append_assoc]

theorem classify_go_known (current : List String) :
    ∀ (new known : List String) (x : String),
      x ∈ (current.foldl
        (fun acc name =>
          if name ∈ acc.2 then acc else (acc.1 ++ [name], acc.2 ++ [name]))
        (new, known)).2 ↔ x ∈ known ∨ x ∈ current := by
  induction current with
  | nil =>
    intro new known x
    simp
  | cons n rest ih =>
    intro new known x
    simp only [List.foldl_cons]
    by_cases hmem : n ∈ known
    · rw [if_pos hmem, ih new known x]
      constructor
      · rintro (h | h)
        · exact Or.inl h
        · exact Or.inr (List.mem_cons_of_mem n h)
      · rintro (h | h)
        · exact Or.inl h
        · rcases List.mem_cons.1 h with rfl | h
          · exact Or.inl hmem
          · exact Or.inr h
    · rw [if_neg hmem, ih (new ++ [n]) (known ++ [n]) x]
      simp only [List.mem_append, List.mem_singleton, List.mem_cons]
      tauto

/-- Claim C5: classification returns as new exactly the current identifiers
not present in the known set, in current order, and updates the known set to
the union of the old known set and the current identifiers, never removing
any element. -/
theorem c5_classify_spec (current known : List String) (hnd : current.Nodup) :
    (classify current known).1 =
        current.filter (fun n => decide (n ∉ known)) ∧
      (∀ x, x ∈ (classify current known).2 ↔ x ∈ known ∨ x ∈ current) ∧
      (∀ x ∈ known, x ∈ (classify current known).2) := by
  refine ⟨?_, ?_, ?_⟩
  · simpa using classify_go_new current [] known hnd
  · intro x
    exact classify_go_known current [] known x
  · intro x hx
    exact (classify_go_known current [] known x).2 (Or.inl hx)

/-- Witness for C5 on a concrete current list and known set. -/
theorem c5_classify_spec_witness :
    (["Trophy_B", "Trophy_A"] : List String).Nodup ∧
      ((classify ["Trophy_B", "Trophy_A"] ["Trophy_A"]).1 =
          ["Trophy_B", "Trophy_A"].filter
            (fun n => decide (n ∉ (["Trophy_A"] : List String))) ∧
        (∀ x, x ∈ (classify ["Trophy_B", "Trophy_A"] ["Trophy_A"]).2 ↔
          x ∈ (["Trophy_A"] : List String) ∨ x ∈ ["Trophy_B", "Trophy_A"]) ∧
        (∀ x ∈ (["Trophy_A"] : List String),
          x ∈ (classify ["Trophy_B", "Trophy_A"] ["Trophy_A"]).2)) :=
  ⟨by decide, c5_classify_spec ["Trophy_B", "Trophy_A"] ["Trophy_A"] (by decide)⟩

/-! ### Config store lemmas -/

theorem find?_setOpt_same (k v : String) (opts : Options) :
    (setOpt opts k v).find? (fun p => p.1 == k) = some (k, v) := by
  unfold setOpt
  by_cases hany : opts.any (fun p => p.1 == k) = true
  · rw [if_pos hany]
    induction opts with
    | nil => simp at hany
    | cons p rest ih =>
      cases hp : (p.1 == k) with
      | true =>
        simp only [List.map_cons, if_pos hp, List.find?_cons, beq_self_eq_true]
      | false =>
        simp only [List.map_cons, hp, Bool.false_eq_true, if_false,
          List.find?_cons]
        apply ih
        simp only [List.any_cons, hp, Bool.false_or] at hany
        exact hany
  · rw [if_neg hany]
    rw [List.find?_append]
    have h1 : opts.find? (fun p => p.1 == k) = none := by
      rw [List.find?_eq_none]
      intro x hx hxk
      exact hany (List.any_eq_true.2 ⟨x, hx, hxk⟩)
    rw [h1]
    simp [List.find?_cons]

theorem find?_map_replace_other {k k2 : String} (v : String) (hne : k2 ≠ k)
    (opts : Options) :
    (opts.map (fun p => if p.1 == k then (k, v) else p)).find?
        (fun p => p.1 == k2) =
      opts.find? (fun p => p.1 == k2) := by
  induction opts with
  | nil => rfl
  | cons p rest ih =>
    simp only [List.map_cons]
    cases hp : (p.1 == k) with
    | true =>
      have hpk : p.1 = k := eq_of_beq hp
      have hk2 : ((k : String) == k2) = false := by
        simp only [beq_eq_false_iff_ne, ne_eq]
        exact fun h => hne h.symm
      have hp2 : (p.1 == k2) = false := by
        rw [hpk]
        exact hk2
      simp only [hp, if_true, List.find?_cons, hk2, hp2]
      exact ih
    | false =>
      simp only [hp, Bool.false_eq_true, if_false, List.find?_cons]
      cases hpk2 : (p.1 == k2) with
      | true => rfl
      | false => exact ih

theorem find?_setOpt_other {k k2 : String} (v : String) (hne : k2 ≠ k)
    (opts : Options) :
    (setOpt opts k v).find? (fun p => p.1 == k2) =
      opts.find? (fun p => p.1 == k2) := by
  unfold setOpt
  split
  · exact find?_map_replace_other v hne opts
  · rw [List.find?_append]
    have h2 : ([(k, v)] : Options).find? (fun p => p.1 == k2) = none := by
      have hk2 : ((k : String) == k2) = false := by
        simp only [beq_eq_false_iff_ne, ne_eq]
        exact fun h => hne h.symm
      simp [List.find?_cons, hk2]
    rw [h2, Option.or_none]

theorem cfgFind_cfgSet_same (c : Config) (sec key v : String) :
    cfgFind (cfgSet c sec key v) sec =
      (cfgFind c sec).map (fun o => setOpt o (lowerKey key) v) := by
  unfold cfgFind cfgSet
  induction c with
  | nil => rfl
  | cons s rest ih =>
    simp only [List.map_cons]
    cases hs : (s.1 == sec) with
    | true =>
      simp only [hs, if_true, List.find?_cons, Option.map_some']
    | false =>
      simp only [hs, Bool.false_eq_true, if_false, List.find?_cons]
      exact ih

theorem cfgFind_cfgSet_other {sec sec2 : String} (c : Config)
    (key v : String) (hne : sec2 ≠ sec) :
    cfgFind (cfgSet c sec key v) sec2 = cfgFind c sec2 := by
  unfold cfgFind cfgSet
  induction c with
  | nil => rfl
  | cons s rest ih =>
    simp only [List.map_cons]
    cases hs : (s.1 == sec) with
    | true =>
      have hs2 : (s.1 == sec2) = false := by
        simp only [beq_eq_false_iff_ne, ne_eq, eq_of_beq hs]
        exact fun h => hne h.symm
      simp only [hs, if_true, List.find?_cons, hs2]
      exact ih
    | false =>
      simp only [hs, Bool.false_eq_true, if_false, List.find?_cons]
      cases hs2 : (s.1 == sec2) with
      | true => rfl
      | false => exact ih

theorem hasSection_cfgFind (c : Config) (sec : String) :
    hasSection c sec = true ↔ ∃ o, cfgFind c sec = some o := by
  unfold hasSection cfgFind
  induction c with
  | nil => simp
  | cons s rest ih =>
    simp only [List.any_cons, List.find?_cons, Bool.or_eq_true]
    cases hs : (s.1 == sec) with
    | true => simp
    | false => simpa using ih

theorem hasSection_cfgSet (c : Config) (sec key v sec2 : String) :
    hasSection (cfgSet c sec key v) sec2 = hasSection c sec2 := by
  unfold hasSection cfgSet
  induction c with
  | nil => rfl
  | cons s rest ih =>
    simp only [List.map_cons, List.any_cons]
    have hfst : ((if s.1 == sec then (s.1, setOpt s.2 (lowerKey key) v)
        else s)).1 = s.1 := by
      split <;> rfl
    rw [hfst, ih]

theorem hasSection_addSection_self (c : Config) (sec : String) :
    hasSection (addSection c sec) sec = true := by
  unfold hasSection addSection
  rw [List.any_append]
  simp

theorem cfgFind_addSection_other {sec sec2 : String} (c : Config)
    (hne : sec2 ≠ sec) :
    cfgFind (addSection c sec) sec2 = cfgFind c sec2 := by
  unfold cfgFind addSection
  rw [List.find?_append]
  have h2 : ([(sec, ([] : Options))] : Config).find?
      (fun s => s.1 == sec2) = none := by
    have hs : ((sec : String) == sec2) = false := by
      simp only [beq_eq_false_iff_ne, ne_eq]
      exact fun h => hne h.symm
    simp [List.find?_cons, hs]
  rw [h2, Option.or_none]

theorem cfgFind_addSection_self (c : Config) (sec : String)
    (h : hasSection c sec = false) :
    cfgFind (addSection c sec) sec = some [] := by
  unfold cfgFind addSection
  rw [List.find?_append]
  have h1 : c.find? (fun s => s.1 == sec) = none := by
    rw [List.find?_eq_none]
    intro x hx hxs
    have h2 : c.any (fun s => s.1 == sec) = true :=
      List.any_eq_true.2 ⟨x, hx, hxs⟩
    unfold hasSection at h
    rw [h2] at h
    exact absurd h (by simp)
  rw [h1]
  simp [List.find?_cons]

theorem cfgGet_cfgSet_same (c : Config) (sec key v : String)
    (hsec : hasSection c sec = true) :
    cfgGet (cfgSet c sec key v) sec key = some v := by
  rcases (hasSection_cfgFind c sec).1 hsec with ⟨o, ho⟩
  unfold cfgGet
  rw [cfgFind_cfgSet_same, ho]
  simp only [Option.map_some', Option.some_bind]
  unfold getOpt
  rw [find?_setOpt_same]
  rfl

theorem cfgGet_cfgSet_other_key {key key2 : String} (c : Config)
    (sec v : String) (hne : lowerKey key2 ≠ lowerKey key) :
    cfgGet (cfgSet c sec key v) sec key2 = cfgGet c sec key2 := by
  unfold cfgGet
  rw [cfgFind_cfgSet_same]
  cases ho : cfgFind c sec with
  | none => simp
  | some o =>
    simp only [Option.map_some', Option.some_bind]
    unfold getOpt
    rw [find?_setOpt_other v hne o]

theorem cfgGet_cfgSet_other_sec {sec sec2 : String} (c : Config)
    (key key2 v : String) (hne : sec2 ≠ sec) :
    cfgGet (cfgSet c sec key v) sec2 key2 = cfgGet c sec2 key2 := by
  unfold cfgGet
  rw [cfgFind_cfgSet_other c key v hne]

theorem cfgGet_addSection_other {sec sec2 : String} (c : Config)
    (key : String) (hne : sec2 ≠ sec) :
    cfgGet (addSection c sec) sec2 key = cfgGet c sec2 key := by
  unfold cfgGet
  rw [cfgFind_addSection_other c hne]

/-! ### String and character lemmas -/

theorem sdata_append (a b : String) : (a ++ b).data = a.data ++ b.data := rfl

theorem char_toNat_inj {a b : Char} (h : a.toNat = b.toNat) : a = b := by
  rw [← Char.ofNat_toNat a, ← Char.ofNat_toNat b, h]

theorem head?_mem {α : Type} {l : List α} {c : α} (h : l.head? = some c) :
    c ∈ l := by
  cases l with
  | nil => simp at h
  | cons a t =>
    simp only [List.head?_cons, Option.some.injEq] at h
    rw [← h]
    exact List.mem_cons_self a t

theorem getLast?_mem {α : Type} {l : List α} {c : α}
    (h : l.getLast? = some c) : c ∈ l := by
  rw [← List.head?_reverse] at h
  exact List.mem_reverse.1 (head?_mem h)

theorem head?_append_left {α : Type} {l1 : List α} (l2 : List α)
    (h : l1 ≠ []) : (l1 ++ l2).head? = l1.head? := by
  cases l1 with
  | nil => exact absurd rfl h
  | cons a t => rfl

theorem getLast?_append_right {α : Type} (l1 : List α) {l2 : List α}
    (h : l2 ≠ []) : (l1 ++ l2).getLast? = l2.getLast? := by
  rw [← List.head?_reverse, ← List.head?_reverse, List.reverse_append]
  apply head?_append_left
  simp only [ne_eq, List.reverse_eq_nil_iff]
  exact h

theorem dropWhile_eq_self_of_head {l : List Char}
    (h : ∀ c, l.head? = some c → isPyWS c = false) :
    l.dropWhile isPyWS = l := by
  cases l with
  | nil => rfl
  | cons c cs =>
    rw [List.dropWhile_cons, h c rfl]
    simp

theorem stripChars_eq_self {l : List Char}
    (h1 : ∀ c, l.head? = some c → isPyWS c = false)
    (h2 : ∀ c, l.getLast? = some c → isPyWS c = false) :
    stripChars l = l := by
  unfold stripChars
  rw [dropWhile_eq_self_of_head h1]
  rw [dropWhile_eq_self_of_head, List.reverse_reverse]
  intro c hc
  rw [List.head?_reverse] at hc
  exact h2 c hc

theorem rstrip_eq_self {l : List Char}
    (h : ∀ c, l.getLast? = some c → isPyWS c = false) :
    (l.reverse.dropWhile isPyWS).reverse = l := by
  rw [dropWhile_eq_self_of_head, List.reverse_reverse]
  intro c hc
  rw [List.head?_reverse] at hc
  exact h c hc

theorem digit_bounds {c : Char} (h : isDigitChar c = true) :
    48 ≤ c.toNat ∧ c.toNat ≤ 57 := by
  simp only [isDigitChar, Bool.and_eq_true, decide_eq_true_eq] at h
  exact h

theorem digit_not_ws {c : Char} (h : isDigitChar c = true) :
    isPyWS c = false := by
  have hb := digit_bounds h
  simp only [isPyWS, Bool.or_eq_false_iff, beq_eq_false_iff_ne, ne_eq]
  omega

theorem digit_not_delim {c : Char} (h : isDigitChar c = true) :
    isDelimChar c = false := by
  have hb := digit_bounds h
  simp only [isDelimChar, Bool.or_eq_false_iff]
  constructor
  · rw [beq_eq_false_iff_ne]
    rintro rfl
    have h61 : ('=' : Char).toNat = 61 := rfl
    omega
  · rw [beq_eq_false_iff_ne]
    rintro rfl
    have h58 : (':' : Char).toNat = 58 := rfl
    omega

theorem digit_ne_char {c : Char} (h : isDigitChar c = true) (d : Char)
    (hd : d.toNat < 48 ∨ 57 < d.toNat) : c ≠ d := by
  rintro rfl
  have hb := digit_bounds h
  omega

theorem lcChar_digit {c : Char} (h : isDigitChar c = true) : lcChar c = c := by
  have hb := digit_bounds h
  unfold lcChar
  rw [if_neg]
  omega

theorem map_lcChar_digits :
    ∀ l : List Char, l.all isDigitChar = true → l.map lcChar = l := by
  intro l
  induction l with
  | nil => intro _; rfl
  | cons c cs ih =>
    intro h
    simp only [List.all_cons, Bool.and_eq_true] at h
    simp only [List.map_cons, lcChar_digit h.1, ih h.2]

theorem lowerKey_digits {s : String} (h : s.data.all isDigitChar = true) :
    lowerKey s = s := by
  obtain ⟨l⟩ := s
  show String.mk (l.map lcChar) = String.mk l
  rw [map_lcChar_digits l h]

theorem all_head? {l : List Char} {c : Char} {p : Char → Bool}
    (h : l.head? = some c) (hall : l.all p = true) : p c = true :=
  List.all_eq_true.1 hall c (head?_mem h)

theorem all_getLast? {l : List Char} {c : Char} {p : Char → Bool}
    (h : l.getLast? = some c) (hall : l.all p = true) : p c = true :=
  List.all_eq_true.1 hall c (getLast?_mem h)

theorem pad5_ne_nil (n : ℕ) : (pad5 n).data ≠ [] := by
  rw [pad5_data]
  simp only [ne_eq, List.append_eq_nil, List.map_eq_nil_iff, not_and]
  intro _
  exact decDigits_ne_nil n

theorem natToDec_data (n : ℕ) :
    (natToDec n).data = (decDigits n).map digitChar := rfl

theorem natToDec_ne_nil (n : ℕ) : (natToDec n).data ≠ [] := by
  rw [natToDec_data]
  simp only [ne_eq, List.map_eq_nil_iff]
  exact decDigits_ne_nil n

theorem natToDec_all_digit (n : ℕ) :
    (natToDec n).data.all isDigitChar = true := by
  rw [natToDec_data]
  exact decDigits_all_digit n

theorem goodId_ne_nil {s : String} (h : goodId s) : s.data ≠ [] := by
  rcases h with ⟨h7, _, _⟩
  intro hnil
  rw [hnil] at h7
  simp at h7

theorem goodId_head {s : String} (h : goodId s) :
    s.data.head? = some 'T' := by
  rcases h with ⟨h7, _, _⟩
  cases hd : s.data with
  | nil =>
    rw [hd] at h7
    simp at h7
  | cons c t =>
    rw [hd] at h7
    rw [List.take_succ_cons] at h7
    have hct : c = 'T' := (List.cons_eq_cons.1 h7).1
    simp only [List.head?_cons, hct]

theorem goodId_last_not_ws {s : String} (h : goodId s) :
    ∀ c, s.data.getLast? = some c → isPyWS c = false := by
  rcases h with ⟨_, hrange, hlast⟩
  intro c hc
  obtain ⟨hb1, hb2, _⟩ := hrange c (getLast?_mem hc)
  have hnsp : c ≠ ' ' := by
    intro he
    rw [he] at hc
    exact hlast hc
  have h32 : c.toNat ≠ 32 := by
    intro h2
    exact hnsp (char_toNat_inj (by rw [h2]; rfl))
  simp only [isPyWS, Bool.or_eq_false_iff, beq_eq_false_iff_ne, ne_eq]
  omega

theorem goodId_strip {s : String} (h : goodId s) :
    stripChars s.data = s.data := by
  apply stripChars_eq_self
  · intro c hc
    rw [goodId_head h] at hc
    rw [← Option.some.inj hc]
    decide
  · exact goodId_last_not_ws h

theorem goodId_no_pct {s : String} (h : goodId s) :
    ∀ c ∈ s.data, c ≠ '%' := by
  intro c hc he
  have hb := h.2.1 c hc
  have h37 : c.toNat = 37 := by rw [he]; rfl
  exact hb.2.2 h37

theorem goodId_ne_default {s : String} (h : goodId s) :
    (s == ("DEFAULT" : String)) = false := by
  rw [beq_eq_false_iff_ne]
  intro he
  rw [he] at h
  exact absurd h.1 (by decide)

theorem natToDec_no_pct (n : ℕ) : ∀ c ∈ (natToDec n).data, c ≠ '%' :=
  fun c hc => digit_ne_char (List.all_eq_true.1 (natToDec_all_digit n) c hc)
    '%' (Or.inl (by decide))

theorem zero_no_pct : ∀ c ∈ ("0" : String).data, c ≠ '%' := by decide

/-! ### Interpolation lemmas

On a value without `%` the `BasicInterpolation` scanner copies its input
character by character, consuming one unit of fuel per character, so with
any spare fuel it returns the value unchanged and never errors. -/

theorem interpScanF_no_pct (env : Options)
    (recur : List Char → Option (List Char)) :
    ∀ (fuel : ℕ) (l : List Char), l.length < fuel → (∀ c ∈ l, c ≠ '%') →
      interpScanF fuel env recur l = some l := by
  intro fuel
  induction fuel with
  | zero =>
    intro l hlen _
    exact absurd hlen (by omega)
  | succ f ih =>
    intro l hlen hpct
    cases l with
    | nil => rfl
    | cons c rest =>
      have hc : c ≠ '%' := hpct c (List.mem_cons_self c rest)
      simp only [interpScanF]
      rw [if_neg hc]
      rw [ih rest (by simp only [List.length_cons] at hlen; omega)
        (fun d hd => hpct d (List.mem_cons_of_mem c hd))]
      rfl

theorem interpDepth_no_pct (env : Options) (l : List Char) (d : ℕ)
    (hd : 1 ≤ d) (hpct : ∀ c ∈ l, c ≠ '%') :
    interpDepth d env l = some l := by
  obtain ⟨e, rfl⟩ : ∃ e, d = e + 1 := ⟨d - 1, by omega⟩
  show interpScanF (l.length + 1) env (interpDepth e env) l = some l
  exact interpScanF_no_pct env _ (l.length + 1) l (by omega) hpct

theorem interpolate_no_pct (env : Options) (v : String)
    (hpct : ∀ c ∈ v.data, c ≠ '%') : interpolate env v = some v := by
  unfold interpolate
  rw [interpDepth_no_pct env v.data 10 (by omega) hpct]
  rfl

theorem interpEnv_nil (own : Options) : interpEnv [] own = own := by
  unfold interpEnv
  exact List.append_nil own

theorem pyGet_of_find {defaults own : Options} {key : String}
    {q : String × String}
    (hfind : (interpEnv defaults own).find?
      (fun p => p.1 == lowerKey key) = some q)
    (hpct : ∀ c ∈ q.2.data, c ≠ '%') :
    pyGet defaults own key = GetResult.value q.2 := by
  unfold pyGet
  rw [hfind]
  simp only [interpGet]
  rw [interpolate_no_pct _ _ hpct]
  rfl

theorem pyGet_of_getOpt {own : Options} {key v : String}
    (defaults : Options) (hget : getOpt own key = some v)
    (hpct : ∀ c ∈ v.data, c ≠ '%') :
    pyGet defaults own key = GetResult.value v := by
  have hq := hget
  unfold getOpt at hq
  rcases Option.map_eq_some'.1 hq with ⟨q, hqf, hv⟩
  have hfind : (interpEnv defaults own).find?
      (fun p => p.1 == lowerKey key) = some q := by
    unfold interpEnv
    rw [List.find?_append, hqf]
    rfl
  have hqpct : ∀ c ∈ q.2.data, c ≠ '%' := by
    rw [hv]
    exact hpct
  rw [pyGet_of_find hfind hqpct, hv]

theorem any_eq_isSome_find? {α : Type} (p : α → Bool) :
    ∀ l : List α, l.any p = (l.find? p).isSome := by
  intro l
  induction l with
  | nil => rfl
  | cons a t ih =>
    cases hp : p a with
    | true => simp [List.any_cons, List.find?_cons, hp]
    | false => simp [List.any_cons, List.find?_cons, hp, ih]

theorem pyHasOption_nil (own : Options) (k : String) :
    pyHasOption [] own k = (getOpt own k).isSome := by
  unfold pyHasOption getOpt
  rw [interpEnv_nil, any_eq_isSome_find?]
  cases hf : own.find? (fun p => p.1 == lowerKey k) with
  | none => rfl
  | some q => rfl

theorem pyGet_nil_of_no_pct (own : Options) (k : String)
    (hpct : ∀ kv ∈ own, ∀ c ∈ kv.2.data, c ≠ '%') :
    pyGet [] own k =
      (match getOpt own k with
       | some v => GetResult.value v
       | none => GetResult.missing) := by
  cases hget : getOpt own k with
  | none =>
    unfold pyGet
    rw [interpEnv_nil]
    have hf : own.find? (fun p => p.1 == lowerKey k) = none := by
      have hq := hget
      unfold getOpt at hq
      exact Option.map_eq_none'.1 hq
    rw [hf]
    rfl
  | some v =>
    have hq := hget
    unfold getOpt at hq
    rcases Option.map_eq_some'.1 hq with ⟨q, hqf, hv⟩
    have hvpct : ∀ c ∈ v.data, c ≠ '%' := by
      rw [← hv]
      exact hpct q (List.mem_of_find?_eq_some hqf)
    rw [pyGet_of_getOpt [] hget hvpct]

/-! ### Writer lemmas -/

theorem updTrophy_get (c : Config) (name : String) (d : TrophyData) :
    cfgGet (updTrophy c name d) name ("Achieved") = some (natToDec d.achieved) ∧
      cfgGet (updTrophy c name d) name ("CurProgress") = some ("0") ∧
      cfgGet (updTrophy c name d) name ("MaxProgress") = some ("0") ∧
      cfgGet (updTrophy c name d) name ("UnlockTime") =
        some (natToDec d.unlockTime) := by
  have hs1 : hasSection (if hasSection c name then c else addSection c name)
      name = true := by
    by_cases h : hasSection c name = true
    · rw [if_pos h]
      exact h
    · rw [if_neg h]
      exact hasSection_addSection_self c name
  have hs2 : hasSection (cfgSet
      (if hasSection c name then c else addSection c name)
      name ("Achieved") (natToDec d.achieved)) name = true := by
    rw [hasSection_cfgSet]
    exact hs1
  have hs3 : hasSection (cfgSet (cfgSet
      (if hasSection c name then c else addSection c name)
      name ("Achieved") (natToDec d.achieved))
      name ("CurProgress") ("0")) name = true := by
    rw [hasSection_cfgSet]
    exact hs2
  have hs4 : hasSection (cfgSet (cfgSet (cfgSet
      (if hasSection c name then c else addSection c name)
      name ("Achieved") (natToDec d.achieved))
      name ("CurProgress") ("0"))
      name ("MaxProgress") ("0")) name = true := by
    rw [hasSection_cfgSet]
    exact hs3
  unfold updTrophy
  refine ⟨?_, ?_, ?_, ?_⟩
  · rw [cfgGet_cfgSet_other_key _ _ _ (by decide),
      cfgGet_cfgSet_other_key _ _ _ (by decide),
      cfgGet_cfgSet_other_key _ _ _ (by decide),
      cfgGet_cfgSet_same _ _ _ _ hs1]
  · rw [cfgGet_cfgSet_other_key _ _ _ (by decide),
      cfgGet_cfgSet_other_key _ _ _ (by decide),
      cfgGet_cfgSet_same _ _ _ _ hs2]
  · rw [cfgGet_cfgSet_other_key _ _ _ (by decide),
      cfgGet_cfgSet_same _ _ _ _ hs3]
  · rw [cfgGet_cfgSet_same _ _ _ _ hs4]

theorem updTrophy_frame {name name2 : String} (c : Config) (d : TrophyData)
    (key : String) (hne : name2 ≠ name) :
    cfgGet (updTrophy c name d) name2 key = cfgGet c name2 key := by
  unfold updTrophy
  rw [cfgGet_cfgSet_other_sec _ _ _ _ hne, cfgGet_cfgSet_other_sec _ _ _ _ hne,
    cfgGet_cfgSet_other_sec _ _ _ _ hne, cfgGet_cfgSet_other_sec _ _ _ _ hne]
  by_cases h : hasSection c name = true
  · rw [if_pos h]
  · rw [if_neg h, cfgGet_addSection_other _ _ hne]

theorem buildTargetCfg_cons (prior : Config) (p : String × TrophyData)
    (rest : List (String × TrophyData)) :
    buildTargetCfg prior (p :: rest) =
      buildTargetCfg (updTrophy prior p.1 p.2) rest := rfl

theorem buildTargetCfg_frame :
    ∀ (src : List (String × TrophyData)) (prior : Config) (name key : String),
      name ∉ src.map Prod.fst →
      cfgGet (buildTargetCfg prior src) name key = cfgGet prior name key := by
  intro src
  induction src with
  | nil =>
    intro prior name key _
    rfl
  | cons p rest ih =>
    intro prior name key hmem
    simp only [List.map_cons, List.mem_cons, not_or] at hmem
    rw [buildTargetCfg_cons, ih (updTrophy prior p.1 p.2) name key hmem.2]
    exact updTrophy_frame prior p.2 key hmem.1

theorem buildTargetCfg_get :
    ∀ (src : List (String × TrophyData)) (prior : Config) (name : String)
      (d : TrophyData), (src.map Prod.fst).Nodup → (name, d) ∈ src →
      cfgGet (buildTargetCfg prior src) name ("Achieved") =
          some (natToDec d.achieved) ∧
        cfgGet (buildTargetCfg prior src) name ("CurProgress") = some ("0") ∧
        cfgGet (buildTargetCfg prior src) name ("MaxProgress") = some ("0") ∧
        cfgGet (buildTargetCfg prior src) name ("UnlockTime") =
          some (natToDec d.unlockTime) := by
  intro src
  induction src with
  | nil =>
    intro prior name d _ hmem
    simp at hmem
  | cons p rest ih =>
    intro prior name d hnd hmem
    obtain ⟨pn, pd⟩ := p
    simp only [List.map_cons, List.nodup_cons] at hnd
    rw [buildTargetCfg_cons]
    rcases List.mem_cons.1 hmem with heq | hmem2
    · have hn : name = pn := congrArg Prod.fst heq
      have hd : d = pd := congrArg Prod.snd heq
      subst hn
      subst hd
      have hnot : name ∉ rest.map Prod.fst := hnd.1
      have h4 := updTrophy_get prior name d
      refine ⟨?_, ?_, ?_, ?_⟩ <;>
        rw [buildTargetCfg_frame rest (updTrophy prior name d) name _ hnot]
      · exact h4.1
      · exact h4.2.1
      · exact h4.2.2.1
      · exact h4.2.2.2
    · exact ih (updTrophy prior pn pd) name d hnd.2 hmem2

/-- Inside the writing loop `target_config.get` returns exactly the raw
value a section's own table carries when that value is `%`-free: the own
entry shadows any `[DEFAULT]` entry in the chain map and interpolation is
the identity on it. -/
theorem getWritten_of_cfgGet (defaults : Options) (c : Config)
    {name key v : String} (h : cfgGet c name key = some v)
    (hpct : ∀ ch ∈ v.data, ch ≠ '%') :
    getWritten defaults c name key = v := by
  unfold cfgGet at h
  rcases Option.bind_eq_some.1 h with ⟨own, hfind, hget⟩
  unfold getWritten
  rw [hfind]
  simp only [Option.getD_some]
  rw [pyGet_of_getOpt defaults hget hpct]

theorem sectionLines_eq (defaults : Options) (cfg : Config) (name : String)
    (d : TrophyData)
    (h1 : cfgGet cfg name ("Achieved") = some (natToDec d.achieved))
    (h2 : cfgGet cfg name ("CurProgress") = some ("0"))
    (h3 : cfgGet cfg name ("MaxProgress") = some ("0"))
    (h4 : cfgGet cfg name ("UnlockTime") = some (natToDec d.unlockTime)) :
    sectionLines defaults cfg name =
      ["[" ++ name ++ "]",
       "Achieved=" ++ natToDec d.achieved,
       "CurProgress=0",
       "MaxProgress=0",
       "UnlockTime=" ++ natToDec d.unlockTime,
       ""] := by
  unfold sectionLines
  rw [getWritten_of_cfgGet defaults cfg h1 (natToDec_no_pct d.achieved),
    getWritten_of_cfgGet defaults cfg h2 zero_no_pct,
    getWritten_of_cfgGet defaults cfg h3 zero_no_pct,
    getWritten_of_cfgGet defaults cfg h4 (natToDec_no_pct d.unlockTime)]
  rfl

theorem flatMap_sectionLines (defaults : Options) (cfg : Config) :
    ∀ src : List (String × TrophyData),
      (∀ p ∈ src, sectionLines defaults cfg p.1 =
        ["[" ++ p.1 ++ "]",
         "Achieved=" ++ natToDec p.2.achieved,
         "CurProgress=0",
         "MaxProgress=0",
         "UnlockTime=" ++ natToDec p.2.unlockTime,
         ""]) →
      (src.map Prod.fst).flatMap (fun n => sectionLines defaults cfg n) =
        src.flatMap (fun p =>
          ["[" ++ p.1 ++ "]",
           "Achieved=" ++ natToDec p.2.achieved,
           "CurProgress=0",
           "MaxProgress=0",
           "UnlockTime=" ++ natToDec p.2.unlockTime,
           ""]) := by
  intro src
  induction src with
  | nil =>
    intro _
    rfl
  | cons p rest ih =>
    intro h
    simp only [List.map_cons, List.flatMap_cons]
    rw [h p (List.mem_cons_self p rest),
      ih (fun q hq => h q (List.mem_cons_of_mem p hq))]

/-- The written target file is fully determined by the source trophies; the
configuration carried over from the prior target file — its sections and its
`[DEFAULT]` table alike — does not influence a single written line. -/
theorem syncWriteLines_eq (priorDefaults : Options) (prior : Config)
    (src : List (String × TrophyData)) (hnd : (src.map Prod.fst).Nodup) :
    syncWriteLines priorDefaults prior src = targetSpecLines src := by
  unfold syncWriteLines targetSpecLines
  have hsec : ∀ p ∈ src,
      sectionLines priorDefaults (buildTargetCfg prior src) p.1 =
      ["[" ++ p.1 ++ "]",
       "Achieved=" ++ natToDec p.2.achieved,
       "CurProgress=0",
       "MaxProgress=0",
       "UnlockTime=" ++ natToDec p.2.unlockTime,
       ""] := by
    intro p hp
    obtain ⟨pn, pd⟩ := p
    have h4 := buildTargetCfg_get src prior pn pd hnd hp
    exact sectionLines_eq _ _ _ _ h4.1 h4.2.1 h4.2.2.1 h4.2.2.2
  rw [flatMap_sectionLines _ _ src hsec]

/-- Claim C2: for every ordered trophy list the writer emits the index
header, the zero-padded index lines in order, then the count line, a blank
line, and per trophy the section header followed by Achieved, CurProgress=0,
MaxProgress=0, UnlockTime and a blank line, with the progress fields written
as 0 regardless of any values in the prior target file. -/
theorem c2_write_format (priorDefaults : Options) (prior : Config)
    (src : List (String × TrophyData)) (hnd : (src.map Prod.fst).Nodup) :
    syncWriteLines priorDefaults prior src = targetSpecLines src :=
  syncWriteLines_eq priorDefaults prior src hnd

/-- Witness for C2: a prior target file with nonzero progress values, both
in the trophy's own section and in its `[DEFAULT]` table, does not leak
into the written lines. -/
theorem c2_write_format_witness :
    ((([("Trophy_A", ⟨1, 5⟩)] : List (String × TrophyData)).map
        Prod.fst).Nodup) ∧
      syncWriteLines [("curprogress", "9")]
          [("Trophy_A", [("curprogress", "7"), ("maxprogress", "3")])]
          [("Trophy_A", ⟨1, 5⟩)] =
        targetSpecLines [("Trophy_A", ⟨1, 5⟩)] :=
  ⟨by decide,
    c2_write_format [("curprogress", "9")]
      [("Trophy_A", [("curprogress", "7"), ("maxprogress", "3")])]
      [("Trophy_A", ⟨1, 5⟩)] (by decide)⟩

/-! ### Source-parser lemmas: the interpolation-free specialization -/

theorem readTrophySectionPlain_name {s : String × Options}
    {x : String × TrophyData}
    (h : readTrophySectionPlain s = some x) : x.1 = s.1 := by
  unfold readTrophySectionPlain at h
  split at h
  · split at h
    · split at h
      · exact absurd h (by simp)
      · split at h
        · exact absurd h (by simp)
        · split at h
          · have hx := Option.some.inj h
            rw [← hx]
          · exact absurd h (by simp)
    · exact absurd h (by simp)
  · exact absurd h (by simp)

theorem readTrophySectionPlain_some_iff (sec : String) (opts : Options) :
    (∃ x, readTrophySectionPlain (sec, opts) = some x) ↔
      hasTrophyPfx sec = true ∧ ∃ st tm,
        getOpt opts ("State") = some st ∧ getOpt opts ("Time") = some tm ∧
        st ≠ "" ∧ tm ≠ "" ∧ 8 ≤ tm.data.length ∧
        (tm.data.take 8).all isHexChar = true := by
  unfold readTrophySectionPlain
  by_cases hpfx : hasTrophyPfx sec = true
  · rw [if_pos hpfx]
    simp only [hpfx, true_and]
    cases hst : getOpt opts ("State") with
    | none =>
      simp only [hst]
      constructor
      · rintro ⟨x, hx⟩
        exact absurd hx (by simp)
      · rintro ⟨st, tm, hst2, _⟩
        exact absurd hst2 (by simp [hst])
    | some st =>
      cases htm : getOpt opts ("Time") with
      | none =>
        simp only [hst, htm]
        constructor
        · rintro ⟨x, hx⟩
          exact absurd hx (by simp)
        · rintro ⟨st2, tm, _, htm2, _⟩
          exact absurd htm2 (by simp [htm])
      | some tm =>
        simp only [hst, htm]
        constructor
        · rintro ⟨x, hx⟩
          split at hx
          · exact absurd hx (by simp)
          · next hne =>
            split at hx
            · exact absurd hx (by simp)
            · next hlen =>
              split at hx
              · next t hptv =>
                push_neg at hne
                refine ⟨st, tm, rfl, rfl, hne.1, hne.2, by omega, ?_⟩
                have hsome : ∃ v, parse_time_value tm = some v := ⟨t, hptv⟩
                exact ((parse_time_value_some_iff tm).1 hsome).2
              · exact absurd hx (by simp)
        · rintro ⟨st2, tm2, hst2, htm2, hne1, hne2, hlen, hhex⟩
          have hst3 : st2 = st := (Option.some.inj hst2).symm
          have htm3 : tm2 = tm := (Option.some.inj htm2).symm
          rw [hst3] at hne1
          rw [htm3] at hne2 hlen hhex
          rw [if_neg (by simp [hne1, hne2])]
          rw [if_neg (by omega)]
          rcases (parse_time_value_some_iff tm).2 ⟨hlen, hhex⟩ with ⟨v, hv⟩
          rw [hv]
          exact ⟨_, rfl⟩
  · rw [if_neg hpfx]
    constructor
    · rintro ⟨x, hx⟩
      exact absurd hx (by simp)
    · rintro ⟨hpfx2, _⟩
      exact absurd hpfx2 hpfx

theorem fst_nodup_unique {β : Type} :
    ∀ (l : List (String × β)) (a : String) (b c : β),
      (l.map Prod.fst).Nodup → (a, b) ∈ l → (a, c) ∈ l → b = c := by
  intro l
  induction l with
  | nil =>
    intro a b c _ hb
    simp at hb
  | cons p rest ih =>
    intro a b c hnd hb hc
    simp only [List.map_cons, List.nodup_cons] at hnd
    rcases List.mem_cons.1 hb with hb1 | hb2 <;>
      rcases List.mem_cons.1 hc with hc1 | hc2
    · have h2 : (a, b) = (a, c) := hb1.trans hc1.symm
      exact (Prod.ext_iff.1 h2).2
    · exfalso
      apply hnd.1
      rw [← hb1]
      exact List.mem_map.2 ⟨(a, c), hc2, rfl⟩
    · exfalso
      apply hnd.1
      rw [← hc1]
      exact List.mem_map.2 ⟨(a, b), hb2, rfl⟩
    · exact ih a b c hnd.2 hb2 hc2

/-! ### Source-parser lemmas: the faithful model -/

/-- What a produced record looks like: both `config.get` calls returned a
value, the time decoded, and the record is built from the resolved status
value. -/
theorem readTrophySection_cases {defaults : Options} {s : String × Options}
    {x : String × TrophyData}
    (h : readTrophySection defaults s = some (some x)) :
    ∃ st tm t, pyGet defaults s.2 ("State") = GetResult.value st ∧
      pyGet defaults s.2 ("Time") = GetResult.value tm ∧
      parse_time_value tm = some t ∧
      x = (s.1, ⟨if st.data.take 2 = ['0', '1'] then 1 else 0, t⟩) := by
  unfold readTrophySection at h
  by_cases hpfx : hasTrophyPfx s.1 = true
  case neg =>
    rw [if_neg hpfx] at h
    exact absurd h (by simp)
  rw [if_pos hpfx] at h
  by_cases hhas : (pyHasOption defaults s.2 ("State") &&
      pyHasOption defaults s.2 ("Time")) = true
  case neg =>
    rw [if_neg hhas] at h
    exact absurd h (by simp)
  rw [if_pos hhas] at h
  cases hgs : pyGet defaults s.2 ("State") with
  | missing =>
    rw [hgs] at h
    exact absurd h (by simp)
  | error =>
    rw [hgs] at h
    exact absurd h (by simp)
  | value st =>
    simp only [hgs] at h
    cases hgt : pyGet defaults s.2 ("Time") with
    | missing =>
      rw [hgt] at h
      exact absurd h (by simp)
    | error =>
      rw [hgt] at h
      exact absurd h (by simp)
    | value tm =>
      simp only [hgt] at h
      split at h
      · exact absurd h (by simp)
      · split at h
        · exact absurd h (by simp)
        · split at h
          · next t hptv =>
            have hx := Option.some.inj h
            have hx2 := Option.some.inj hx
            exact ⟨st, tm, t, rfl, rfl, hptv, hx2.symm⟩
          · exact absurd h (by simp)

theorem readTrophySection_sname {defaults : Options} {s : String × Options}
    {x : String × TrophyData}
    (h : readTrophySection defaults s = some (some x)) : x.1 = s.1 := by
  rcases readTrophySection_cases h with ⟨st, tm, t, _, _, _, hx⟩
  rw [hx]

theorem readTrophySection_achieved {defaults : Options} {sec : String}
    {opts : Options} {x : String × TrophyData} {st : String}
    (h : readTrophySection defaults (sec, opts) = some (some x))
    (hst : pyGet defaults opts ("State") = GetResult.value st) :
    x.2.achieved = if st.data.take 2 = ['0', '1'] then 1 else 0 := by
  rcases readTrophySection_cases h with ⟨st2, tm, t, hst2, _, _, hx⟩
  have hst2b : pyGet defaults opts ("State") = GetResult.value st2 := hst2
  rw [hst] at hst2b
  have hss : st2 = st := (GetResult.value.inj hst2b).symm
  rw [hx, hss]

/-- With an empty `[DEFAULT]` table and `%`-free option values the faithful
per-section reader never raises and agrees with the interpolation-free
specialization. -/
theorem readTrophySection_plain (s : String × Options)
    (hpct : ∀ kv ∈ s.2, ∀ c ∈ kv.2.data, c ≠ '%') :
    readTrophySection [] s = some (readTrophySectionPlain s) := by
  unfold readTrophySection readTrophySectionPlain
  by_cases hpfx : hasTrophyPfx s.1 = true
  · rw [if_pos hpfx, if_pos hpfx]
    have hgs := pyGet_nil_of_no_pct s.2 ("State") hpct
    have hgt := pyGet_nil_of_no_pct s.2 ("Time") hpct
    have hhs := pyHasOption_nil s.2 ("State")
    have hht := pyHasOption_nil s.2 ("Time")
    cases hst : getOpt s.2 ("State") with
    | none =>
      simp only [hst, Option.isSome_none] at hhs
      simp only [hst] at hgs
      simp only [hhs, Bool.false_and, Bool.false_eq_true, if_false, hst]
    | some st =>
      simp only [hst, Option.isSome_some] at hhs
      simp only [hst] at hgs
      cases htm : getOpt s.2 ("Time") with
      | none =>
        simp only [htm, Option.isSome_none] at hht
        simp only [hhs, hht, Bool.and_false, Bool.false_eq_true, if_false,
          hst, htm]
      | some tm =>
        simp only [htm, Option.isSome_some] at hht
        simp only [htm] at hgt
        simp only [hhs, hht, Bool.and_self, if_true, hgs, hgt, hst, htm]
        by_cases he : st = "" ∨ tm = ""
        · rw [if_pos he, if_pos he]
        · rw [if_neg he, if_neg he]
          by_cases hlen : tm.data.length < 8
          · rw [if_pos hlen, if_pos hlen]
          · rw [if_neg hlen, if_neg hlen]
            cases hptv : parse_time_value tm with
            | some t => rfl
            | none => rfl
  · rw [if_neg hpfx, if_neg hpfx]

/-- With an empty `[DEFAULT]` table and `%`-free option values the whole
parse succeeds and returns the interpolation-free result. -/
theorem read_stat_ini_plain :
    ∀ cfg : Config,
      (∀ s ∈ cfg, ∀ kv ∈ s.2, ∀ c ∈ kv.2.data, c ≠ '%') →
      read_stat_ini [] cfg = some (readStatPlain cfg) := by
  intro cfg
  induction cfg with
  | nil => intro _; rfl
  | cons s rest ih =>
    intro h
    have hs := readTrophySection_plain s (h s (List.mem_cons_self s rest))
    have hrest := ih (fun q hq => h q (List.mem_cons_of_mem s hq))
    cases hp : readTrophySectionPlain s with
    | none =>
      rw [hp] at hs
      simp only [read_stat_ini, readStatPlain, List.filterMap_cons, hs, hp,
        hrest]
    | some r =>
      rw [hp] at hs
      simp only [read_stat_ini, readStatPlain, List.filterMap_cons, hs, hp,
        hrest, Option.map_some']

theorem read_stat_ini_mem (defaults : Options) :
    ∀ (cfg : Config) (l : List (String × TrophyData))
      (x : String × TrophyData),
      read_stat_ini defaults cfg = some l → x ∈ l →
      ∃ s ∈ cfg, readTrophySection defaults s = some (some x) := by
  intro cfg
  induction cfg with
  | nil =>
    intro l x h hx
    simp only [read_stat_ini, Option.some.injEq] at h
    rw [← h] at hx
    simp at hx
  | cons s rest ih =>
    intro l x h hx
    simp only [read_stat_ini] at h
    cases hrs : readTrophySection defaults s with
    | none =>
      rw [hrs] at h
      exact absurd h (by simp)
    | some o =>
      cases o with
      | none =>
        simp only [hrs] at h
        rcases ih l x h hx with ⟨s2, hs2, hseq⟩
        exact ⟨s2, List.mem_cons_of_mem s hs2, hseq⟩
      | some r =>
        simp only [hrs] at h
        rcases Option.map_eq_some'.1 h with ⟨l2, hl2, rfl⟩
        rcases List.mem_cons.1 hx with rfl | hx2
        · exact ⟨s, List.mem_cons_self s rest, hrs⟩
        · rcases ih l2 x hl2 hx2 with ⟨s2, hs2, hseq⟩
          exact ⟨s2, List.mem_cons_of_mem s hs2, hseq⟩

theorem read_stat_ini_ids_sublist (defaults : Options) :
    ∀ (cfg : Config) (l : List (String × TrophyData)),
      read_stat_ini defaults cfg = some l →
      List.Sublist (l.map Prod.fst) (cfg.map Prod.fst) := by
  intro cfg
  induction cfg with
  | nil =>
    intro l h
    simp only [read_stat_ini, Option.some.injEq] at h
    rw [← h]
    simp
  | cons s rest ih =>
    intro l h
    simp only [read_stat_ini] at h
    cases hrs : readTrophySection defaults s with
    | none =>
      rw [hrs] at h
      exact absurd h (by simp)
    | some o =>
      cases o with
      | none =>
        simp only [hrs] at h
        simp only [List.map_cons]
        exact (ih l h).cons s.1
      | some r =>
        simp only [hrs] at h
        rcases Option.map_eq_some'.1 h with ⟨l2, hl2, rfl⟩
        simp only [List.map_cons]
        rw [readTrophySection_sname hrs]
        exact (ih l2 hl2).cons₂ s.1

/-- In the interpolation-free, defaults-free case a section is included
exactly when it has the `Trophy_` prefix and non-empty own `State` and
`Time` values with `Time` at least 8 characters long and its first 8
characters hex. -/
theorem readStatPlain_filter (cfg : Config)
    (hnd : (cfg.map Prod.fst).Nodup) (sec : String) (opts : Options)
    (hmem : (sec, opts) ∈ cfg) :
    (∃ d, (sec, d) ∈ readStatPlain cfg) ↔
      hasTrophyPfx sec = true ∧ ∃ st tm,
        getOpt opts ("State") = some st ∧ getOpt opts ("Time") = some tm ∧
        st ≠ "" ∧ tm ≠ "" ∧ 8 ≤ tm.data.length ∧
        (tm.data.take 8).all isHexChar = true := by
  rw [← readTrophySectionPlain_some_iff sec opts]
  constructor
  · rintro ⟨d, hd⟩
    unfold readStatPlain at hd
    rcases List.mem_filterMap.1 hd with ⟨s, hsmem, hseq⟩
    have hname2 : s.1 = sec := by
      have h := readTrophySectionPlain_name hseq
      simpa using h.symm
    have hs2 : s = (sec, s.2) := by
      rw [← hname2]
    have hopts : s.2 = opts := by
      apply fst_nodup_unique cfg sec s.2 opts hnd
      · rw [← hs2]
        exact hsmem
      · exact hmem
    refine ⟨(sec, d), ?_⟩
    rw [← hopts, ← hs2]
    exact hseq
  · rintro ⟨x, hx⟩
    have hname : x.1 = sec := by
      simpa using readTrophySectionPlain_name hx
    refine ⟨x.2, ?_⟩
    unfold readStatPlain
    apply List.mem_filterMap.2
    refine ⟨(sec, opts), hmem, ?_⟩
    rw [hx]
    rw [show x = (sec, x.2) from Prod.ext hname rfl]

/-- Claim C6 as stated is false on two counts.  A section with no fields of
its own is included when the `[DEFAULT]` section supplies `State` and
`Time`, so the "only if the section has both fields" direction fails; and a
section whose `Time` value ends in a bare `%` satisfies every condition the
claim lists, yet `config.get` raises `InterpolationSyntaxError` and the
whole parse fails instead of skipping one section. -/
theorem c6_source_section_refuted :
    read_stat_ini [("state", "01AB"), ("time", "B0BA866959")]
        [(("Trophy_X" : String), ([] : Options))] =
      some [(("Trophy_X" : String), (⟨1, 1770437296⟩ : TrophyData))] ∧
    getOpt ([] : Options) ("State") = none ∧
    read_stat_ini []
        [(("Trophy_E" : String),
          [("state", "01AB"), ("time", "AABBCCDD%")])] = none := by
  decide

/-- Claim C6, amended: for every successfully read source configuration
whose `[DEFAULT]` section is empty and whose option values contain no `%`,
the parse as a whole succeeds, and it includes a section exactly when the
section name has the `Trophy_` prefix and the section has both a status
field and a time field, present and non-empty, with the time field at least
8 characters long and its first 8 characters decodable as hex; every
section violating any of these conditions is only skipped. -/
theorem c6_source_section_filter (cfg : Config)
    (hnd : (cfg.map Prod.fst).Nodup)
    (hpct : ∀ s ∈ cfg, ∀ kv ∈ s.2, ∀ c ∈ kv.2.data, c ≠ '%') :
    ∃ l, read_stat_ini [] cfg = some l ∧
      ∀ sec opts, (sec, opts) ∈ cfg →
        ((∃ d, (sec, d) ∈ l) ↔
          hasTrophyPfx sec = true ∧ ∃ st tm,
            getOpt opts ("State") = some st ∧
            getOpt opts ("Time") = some tm ∧
            st ≠ "" ∧ tm ≠ "" ∧ 8 ≤ tm.data.length ∧
            (tm.data.take 8).all isHexChar = true) := by
  refine ⟨readStatPlain cfg, read_stat_ini_plain cfg hpct, ?_⟩
  intro sec opts hmem
  exact readStatPlain_filter cfg hnd sec opts hmem

/-- Witness for the amended C6 on a two-section source configuration with
empty defaults and `%`-free values. -/
theorem c6_source_section_filter_witness :
    ((([("Trophy_A", [("state", "01AB"), ("time", "B0BA866959")]),
        ("Trophy_B", [("state", "01AB")])] : Config).map Prod.fst).Nodup ∧
      (∀ s ∈ ([("Trophy_A", [("state", "01AB"), ("time", "B0BA866959")]),
          ("Trophy_B", [("state", "01AB")])] : Config),
        ∀ kv ∈ s.2, ∀ c ∈ kv.2.data, c ≠ '%')) ∧
      (∃ l, read_stat_ini []
          [("Trophy_A", [("state", "01AB"), ("time", "B0BA866959")]),
           ("Trophy_B", [("state", "01AB")])] = some l ∧
        ∀ sec opts, (sec, opts) ∈
            ([("Trophy_A", [("state", "01AB"), ("time", "B0BA866959")]),
              ("Trophy_B", [("state", "01AB")])] : Config) →
          ((∃ d, (sec, d) ∈ l) ↔
            hasTrophyPfx sec = true ∧ ∃ st tm,
              getOpt opts ("State") = some st ∧
              getOpt opts ("Time") = some tm ∧
              st ≠ "" ∧ tm ≠ "" ∧ 8 ≤ tm.data.length ∧
              (tm.data.take 8).all isHexChar = true)) :=
  ⟨⟨by decide, by decide⟩,
    c6_source_section_filter
      [("Trophy_A", [("state", "01AB"), ("time", "B0BA866959")]),
       ("Trophy_B", [("state", "01AB")])] (by decide) (by decide)⟩

/-- Claim C9 as stated is false: the parser derives the flag from the value
`config.get` returns, which is the stored status field only after
`BasicInterpolation`.  With status field `"0%(a)s"` and a sibling option
`a = 1x`, the resolved value is `"01x"` and the record is marked achieved
even though the section's status field does not start with `"01"`. -/
theorem c9_achieved_flag_refuted :
    read_stat_ini []
        [(("Trophy_A" : String),
          [("state", "0%(a)s"), ("a", "1x"), ("time", "B0BA866959")])] =
      some [(("Trophy_A" : String), (⟨1, 1770437296⟩ : TrophyData))] ∧
    getOpt [("state", "0%(a)s"), ("a", "1x"), ("time", "B0BA866959")]
        ("State") = some ("0%(a)s") ∧
    ("0%(a)s" : String).data.take 2 ≠ ['0', '1'] := by
  decide

/-- Claim C9, amended: for every trophy record the source parser produces,
the achieved flag is 1 exactly when the first two characters of the status
value that `config.get` returns for that section — after `[DEFAULT]`
fallback and `BasicInterpolation` — equal `"01"`, and 0 for any other
resolved status value. -/
theorem c9_achieved_flag (defaults : Options) (cfg : Config)
    (hnd : (cfg.map Prod.fst).Nodup)
    (sec : String) (opts : Options) (d : TrophyData) (st : String)
    (hmem : (sec, opts) ∈ cfg)
    (hrec : (sec, d) ∈ (read_stat_ini defaults cfg).getD [])
    (hst : pyGet defaults opts ("State") = GetResult.value st) :
    (d.achieved = 1 ↔ st.data.take 2 = ['0', '1']) ∧
      (d.achieved = 0 ↔ st.data.take 2 ≠ ['0', '1']) := by
  cases hread : read_stat_ini defaults cfg with
  | none =>
    rw [hread] at hrec
    simp at hrec
  | some l =>
    rw [hread] at hrec
    simp only [Option.getD_some] at hrec
    rcases read_stat_ini_mem defaults cfg l (sec, d) hread hrec with
      ⟨s, hsmem, hseq⟩
    have hname2 : s.1 = sec := by
      have h := readTrophySection_sname hseq
      simpa using h.symm
    have hs2 : s = (sec, s.2) := by
      rw [← hname2]
    have hopts : s.2 = opts := by
      apply fst_nodup_unique cfg sec s.2 opts hnd
      · rw [← hs2]
        exact hsmem
      · exact hmem
    rw [hs2, hopts] at hseq
    have hach : d.achieved =
        if st.data.take 2 = ['0', '1'] then 1 else 0 := by
      have := readTrophySection_achieved hseq hst
      simpa using this
    by_cases hc : st.data.take 2 = ['0', '1']
    · rw [hach, if_pos hc]
      simp [hc]
    · rw [hach, if_neg hc]
      simp [hc]

/-- Witness for the amended C9 at the interpolated source section: the
stored status field is `"0%(a)s"`, `config.get` resolves it to `"01x"`,
and the flag follows the resolved value. -/
theorem c9_achieved_flag_witness :
    (((([("Trophy_A",
          [("state", "0%(a)s"), ("a", "1x"), ("time", "B0BA866959")])] :
          Config).map Prod.fst).Nodup) ∧
      ("Trophy_A",
          [("state", "0%(a)s"), ("a", "1x"), ("time", "B0BA866959")]) ∈
        ([("Trophy_A",
          [("state", "0%(a)s"), ("a", "1x"), ("time", "B0BA866959")])] :
          Config) ∧
      ("Trophy_A", (⟨1, 1770437296⟩ : TrophyData)) ∈
        (read_stat_ini []
          [("Trophy_A",
            [("state", "0%(a)s"), ("a", "1x"),
             ("time", "B0BA866959")])]).getD [] ∧
      pyGet [] [("state", "0%(a)s"), ("a", "1x"), ("time", "B0BA866959")]
          ("State") = GetResult.value ("01x")) ∧
      (((⟨1, 1770437296⟩ : TrophyData).achieved = 1 ↔
          ("01x" : String).data.take 2 = ['0', '1']) ∧
        ((⟨1, 1770437296⟩ : TrophyData).achieved = 0 ↔
          ("01x" : String).data.take 2 ≠ ['0', '1'])) :=
  ⟨⟨by decide, by decide, by decide, by decide⟩,
    c9_achieved_flag []
      [("Trophy_A",
        [("state", "0%(a)s"), ("a", "1x"), ("time", "B0BA866959")])]
      (by decide) ("Trophy_A")
      [("state", "0%(a)s"), ("a", "1x"), ("time", "B0BA866959")]
      ⟨1, 1770437296⟩ ("01x") (by decide) (by decide) (by decide)⟩

/-! ### Sync orchestrator lemmas -/

theorem sync_abort (defaults : Options) (cfg : Config) (st : SyncState)
    (h : read_stat_ini defaults cfg = none) :
    sync_achievements defaults cfg st = (st, []) := by
  simp [sync_achievements, h]

theorem sync_empty (defaults : Options) (cfg : Config) (st : SyncState)
    (h : read_stat_ini defaults cfg = some []) :
    sync_achievements defaults cfg st = (st, []) := by
  simp [sync_achievements, h]

/-- Claim C7: a sync pass whose source parse yields an empty mapping leaves
the target file contents untouched. -/
theorem c7_empty_source_frame (defaults : Options) (cfg : Config)
    (st : SyncState) (h : read_stat_ini defaults cfg = some []) :
    (sync_achievements defaults cfg st).1.target = st.target := by
  rw [sync_empty defaults cfg st h]

/-- Witness for C7: a source config with no trophy sections leaves a
populated state untouched. -/
theorem c7_empty_source_frame_witness :
    read_stat_ini []
        [("Other", [("state", "01"), ("time", "B0BA866959")])] =
        some [] ∧
      (sync_achievements []
          [("Other", [("state", "01"), ("time", "B0BA866959")])]
          ⟨["Trophy_X"], some ["line"]⟩).1.target =
        (⟨["Trophy_X"], some ["line"]⟩ : SyncState).target :=
  ⟨by decide,
    c7_empty_source_frame []
      [("Other", [("state", "01"), ("time", "B0BA866959")])]
      ⟨["Trophy_X"], some ["line"]⟩ (by decide)⟩

/-- Claim C3: running a sync pass twice on the same source produces
identical target-file contents and classifies no trophy as new on the
second pass. -/
theorem c3_sync_idempotent (defaults : Options) (cfg : Config)
    (st : SyncState) (hnd : (cfg.map Prod.fst).Nodup) :
    (sync_achievements defaults cfg
          (sync_achievements defaults cfg st).1).1.target =
        (sync_achievements defaults cfg st).1.target ∧
      (sync_achievements defaults cfg
          (sync_achievements defaults cfg st).1).2 = [] := by
  cases hread : read_stat_ini defaults cfg with
  | none => simp [sync_abort defaults cfg _ hread]
  | some src =>
    cases src with
    | nil => simp [sync_empty defaults cfg _ hread]
    | cons x xs =>
      have hne : x :: xs ≠ [] := by simp
      have hidnd : ((x :: xs).map Prod.fst).Nodup :=
        hnd.sublist (read_stat_ini_ids_sublist defaults cfg _ hread)
      have hsub : ∀ a ∈ (x :: xs).map Prod.fst,
          a ∈ (classify ((x :: xs).map Prod.fst) st.known).2 :=
        fun a ha =>
          (classify_go_known ((x :: xs).map Prod.fst) [] st.known
            a).2 (Or.inr ha)
      constructor
      · simp only [sync_achievements, hread, if_neg hne]
        rw [syncWriteLines_eq _ _ _ hidnd, syncWriteLines_eq _ _ _ hidnd]
      · simp only [sync_achievements, hread, if_neg hne]
        have h1 : (classify ((x :: xs).map Prod.fst)
              (classify ((x :: xs).map Prod.fst) st.known).2).1 =
            ((x :: xs).map Prod.fst).filter
              (fun n => decide
                (n ∉ (classify ((x :: xs).map Prod.fst)
                  st.known).2)) := by
          simpa using classify_go_new ((x :: xs).map Prod.fst) []
            (classify ((x :: xs).map Prod.fst) st.known).2 hidnd
        rw [h1, List.filter_eq_nil_iff]
        intro a ha
        simp only [decide_eq_true_eq]
        exact fun hn => hn (hsub a ha)

/-- Witness for C3 on a one-trophy source and an initially empty state. -/
theorem c3_sync_idempotent_witness :
    ((([("Trophy_A", [("state", "01AB"), ("time", "B0BA866959")])] :
        Config).map Prod.fst).Nodup) ∧
      ((sync_achievements []
            [("Trophy_A", [("state", "01AB"), ("time", "B0BA866959")])]
            (sync_achievements []
              [("Trophy_A", [("state", "01AB"), ("time", "B0BA866959")])]
              ⟨[], none⟩).1).1.target =
          (sync_achievements []
            [("Trophy_A", [("state", "01AB"), ("time", "B0BA866959")])]
            ⟨[], none⟩).1.target ∧
        (sync_achievements []
            [("Trophy_A", [("state", "01AB"), ("time", "B0BA866959")])]
            (sync_achievements []
              [("Trophy_A", [("state", "01AB"), ("time", "B0BA866959")])]
              ⟨[], none⟩).1).2 = []) :=
  ⟨by decide,
    c3_sync_idempotent []
      [("Trophy_A", [("state", "01AB"), ("time", "B0BA866959")])]
      ⟨[], none⟩ (by decide)⟩

/-! ### Debounce lemmas -/

theorem runEvents_two (srcPath : String) (t1 t2 : ℚ) (h1 : 1 / 2 ≤ t1) :
    runEvents srcPath 0 [(srcPath, t1), (srcPath, t2)] =
      if t2 - t1 < 1 / 2 then 1 else 2 := by
  have hacc1 : ¬(t1 - 0 < (1 : ℚ) / 2) := by linarith
  have e1 : (t1 - 0 < (1 : ℚ) / 2) = False := eq_false hacc1
  by_cases h2 : t2 - t1 < (1 : ℚ) / 2
  · have e2 : (t2 - t1 < (1 : ℚ) / 2) = True := eq_true h2
    simp only [runEvents, handle_change, eq_self_iff_true, if_true, e1,
      e2, if_false]
    norm_num
  · have e2 : (t2 - t1 < (1 : ℚ) / 2) = False := eq_false h2
    simp only [runEvents, handle_change, eq_self_iff_true, if_true, e1,
      e2, if_false]

/-- Claim C8: an event for the watched source path triggers a sync pass
exactly when it arrives at least half a second after the last accepted
event, so two events 100 ms apart trigger one pass and two events 600 ms
apart trigger two. -/
theorem c8_debounce (srcPath evPath : String) (last t : ℚ)
    (hpath : evPath = srcPath) :
    ((handle_change srcPath last evPath t).1 = true ↔ last + 1 / 2 ≤ t) ∧
      ∀ t1 : ℚ, 1 / 2 ≤ t1 →
        runEvents srcPath 0 [(srcPath, t1), (srcPath, t1 + 1 / 10)] = 1 ∧
          runEvents srcPath 0 [(srcPath, t1), (srcPath, t1 + 3 / 5)] = 2 := by
  constructor
  · unfold handle_change
    rw [if_pos hpath]
    by_cases hlt : t - last < 1 / 2
    · rw [if_pos hlt]
      constructor
      · intro hfalse
        exact absurd hfalse (by simp)
      · intro hle
        exfalso
        linarith
    · rw [if_neg hlt]
      constructor
      · intro _
        linarith [not_lt.1 hlt]
      · intro _
        rfl
  · intro t1 ht1
    constructor
    · rw [runEvents_two srcPath t1 (t1 + 1 / 10) ht1]
      rw [if_pos (by linarith)]
    · rw [runEvents_two srcPath t1 (t1 + 3 / 5) ht1]
      rw [if_neg (by linarith)]

/-- Witness for C8 at concrete event times. -/
theorem c8_debounce_witness :
    runEvents ("watched") 0 [(("watched"), 1), (("watched"), 1 + 1 / 10)] =
        1 ∧
      runEvents ("watched") 0 [(("watched"), 1), (("watched"), 1 + 3 / 5)] =
        2 :=
  (c8_debounce ("watched") ("watched") 0 1 rfl).2 1 (by norm_num)

/-! ### Line-matching lemmas -/

theorem splitDelim_append (a : List Char) (b : List Char)
    (ha : ∀ c ∈ a, isDelimChar c = false) :
    splitDelim (a ++ '=' :: b) = some (a, b) := by
  induction a with
  | nil =>
    simp [splitDelim, isDelimChar]
  | cons c cs ih =>
    have hc := ha c (List.mem_cons_self c cs)
    simp only [List.cons_append, splitDelim, hc, Bool.false_eq_true, if_false,
      List.append_eq]
    rw [ih (fun d hd => ha d (List.mem_cons_of_mem c hd))]
    rfl

theorem matchOptionLine_append (a : List Char) (b : List Char)
    (ha : ∀ c ∈ a, isDelimChar c = false)
    (hra : (a.reverse.dropWhile isPyWS).reverse = a) :
    matchOptionLine (a ++ '=' :: b) =
      some (lowerKey ⟨a⟩, ⟨stripChars b⟩) := by
  unfold matchOptionLine
  rw [splitDelim_append a b ha]
  simp only [Option.map_some']
  rw [hra]

theorem matchSectionLine_none {c : Char} (rest : List Char) (h : c ≠ '[') :
    matchSectionLine (c :: rest) = none := by
  simp [matchSectionLine, h]

theorem matchSectionLine_header (id : String) (hne : id.data ≠ []) :
    matchSectionLine ('[' :: (id.data ++ [']'])) = some id := by
  show (if ('[' : Char) = '[' then
      match (id.data ++ [']']).reverse.dropWhile (fun d => !(d == ']')) with
      | [] => none
      | _ :: revHeader =>
        if revHeader.reverse = [] then none else some ⟨revHeader.reverse⟩
    else none) = some id
  rw [if_pos rfl]
  have hrev : (id.data ++ [']']).reverse = ']' :: id.data.reverse := by
    simp
  rw [hrev, List.dropWhile_cons]
  simp only [show (!((']' : Char) == ']')) = false from rfl,
    Bool.false_eq_true, if_false]
  show (if id.data.reverse.reverse = [] then none
      else some ⟨id.data.reverse.reverse⟩) = some id
  rw [List.reverse_reverse, if_neg hne]

/-! ### Line-parser stepping lemmas -/

theorem parseLinesAux_cons_blank (rest : List String)
    (cur : Option (String × Options)) :
    parseLinesAux ("" :: rest) cur = parseLinesAux rest cur := by
  simp [parseLinesAux, stripChars]

theorem parseLinesAux_cons_option {line : String} {kv : String × String}
    (rest : List String) (s : String × Options)
    (hstrip : stripChars line.data = line.data)
    (hne : line.data ≠ [])
    (hh1 : line.data.head? ≠ some '#')
    (hh2 : line.data.head? ≠ some ';')
    (hsec : matchSectionLine line.data = none)
    (hopt : matchOptionLine line.data = some kv) :
    parseLinesAux (line :: rest) (some s) =
      parseLinesAux rest (some (s.1, s.2 ++ [kv])) := by
  have hcomment : ¬(line.data.head? = some '#' ∨ line.data.head? = some ';') := by
    rintro (h | h)
    · exact hh1 h
    · exact hh2 h
  simp only [parseLinesAux, hstrip, if_neg hne, if_neg hcomment, hsec, hopt]

theorem parseLinesAux_cons_section {line : String} {name : String}
    (rest : List String) (cur : Option (String × Options))
    (hstrip : stripChars line.data = line.data)
    (hne : line.data ≠ [])
    (hh1 : line.data.head? ≠ some '#')
    (hh2 : line.data.head? ≠ some ';')
    (hsec : matchSectionLine line.data = some name) :
    parseLinesAux (line :: rest) cur =
      flushCur cur ++ parseLinesAux rest (some (name, [])) := by
  have hcomment : ¬(line.data.head? = some '#' ∨ line.data.head? = some ';') := by
    rintro (h | h)
    · exact hh1 h
    · exact hh2 h
  simp only [parseLinesAux, hstrip, if_neg hne, if_neg hcomment, hsec]

/-- Generic option line `a ++ "=" ++ val` whose key part has no delimiters
and no surrounding whitespace: it extends the current section by the
lower-cased key and the stripped value. -/
theorem parseLinesAux_optline (line : String) (a : List Char) (val : String)
    (rest : List String) (s : String × Options)
    (hline : line.data = a ++ '=' :: val.data)
    (ha_ne : a ≠ [])
    (hand : ∀ c ∈ a, isDelimChar c = false)
    (hahead : ∀ c, a.head? = some c →
      isPyWS c = false ∧ c ≠ '[' ∧ c ≠ '#' ∧ c ≠ ';')
    (halast : ∀ c, a.getLast? = some c → isPyWS c = false)
    (hvlast : ∀ c, ('=' :: val.data).getLast? = some c → isPyWS c = false)
    (hvstrip : stripChars val.data = val.data) :
    parseLinesAux (line :: rest) (some s) =
      parseLinesAux rest (some (s.1, s.2 ++ [(lowerKey ⟨a⟩, val)])) := by
  obtain ⟨c0, t0, rfl⟩ : ∃ c0 t0, a = c0 :: t0 := by
    cases a with
    | nil => exact absurd rfl ha_ne
    | cons c0 t0 => exact ⟨c0, t0, rfl⟩
  have hc0 := hahead c0 rfl
  have hheadline : line.data.head? = some c0 := by
    rw [hline]
    rfl
  apply parseLinesAux_cons_option rest s
  · rw [hline]
    apply stripChars_eq_self
    · intro c hc
      rw [show ((c0 :: t0 ++ '=' :: val.data).head? = some c0) from rfl] at hc
      rw [← Option.some.inj hc]
      exact hc0.1
    · intro c hc
      rw [getLast?_append_right (c0 :: t0) (by simp)] at hc
      exact hvlast c hc
  · rw [hline]
    simp
  · rw [hheadline]
    intro hcontra
    exact hc0.2.2.1 (Option.some.inj hcontra)
  · rw [hheadline]
    intro hcontra
    exact hc0.2.2.2 (Option.some.inj hcontra)
  · rw [hline]
    exact matchSectionLine_none _ hc0.2.1
  · rw [hline]
    rw [matchOptionLine_append _ _ hand (rstrip_eq_self halast)]
    rw [hvstrip]

/-- Generic section line `"[" ++ id ++ "]"` for a non-empty identifier: it
flushes the current section and opens a new one named `id`. -/
theorem parseLinesAux_secline (line : String) (id : String)
    (rest : List String) (cur : Option (String × Options))
    (hline : line.data = '[' :: (id.data ++ [']']))
    (hid_ne : id.data ≠ []) :
    parseLinesAux (line :: rest) cur =
      flushCur cur ++ parseLinesAux rest (some (id, [])) := by
  apply parseLinesAux_cons_section rest cur
  · rw [hline]
    apply stripChars_eq_self
    · intro c hc
      rw [show (('[' :: (id.data ++ [']'])).head? = some '[') from rfl] at hc
      rw [← Option.some.inj hc]
      decide
    · intro c hc
      rw [show ('[' :: (id.data ++ [']'])) = ('[' :: id.data) ++ [']'] by
        simp] at hc
      rw [getLast?_append_right ('[' :: id.data) (by simp)] at hc
      simp only [List.getLast?_singleton, Option.some.injEq] at hc
      rw [← hc]
      decide
  · rw [hline]
    simp
  · rw [hline]
    intro hcontra
    have : ('[' : Char) = '#' := Option.some.inj hcontra
    exact absurd this (by decide)
  · rw [hline]
    intro hcontra
    have : ('[' : Char) = ';' := Option.some.inj hcontra
    exact absurd this (by decide)
  · rw [hline]
    exact matchSectionLine_header id hid_ne

/-! ### Written-line lemmas -/

theorem strip_digits {s : String} (h : s.data.all isDigitChar = true) :
    stripChars s.data = s.data :=
  stripChars_eq_self (fun _ hc => digit_not_ws (all_head? hc h))
    (fun _ hc => digit_not_ws (all_getLast? hc h))

theorem parseLinesAux_ixline (i : ℕ) (n : String) (hg : goodId n)
    (rest : List String) (s : String × Options) :
    parseLinesAux ((pad5 i ++ "=" ++ n) :: rest) (some s) =
      parseLinesAux rest (some (s.1, s.2 ++ [(pad5 i, n)])) := by
  have hdata : (pad5 i ++ "=" ++ n).data = (pad5 i).data ++ '=' :: n.data := by
    rw [sdata_append, sdata_append]
    simp
  have hres := parseLinesAux_optline (pad5 i ++ "=" ++ n) (pad5 i).data n rest s
    hdata (pad5_ne_nil i)
    (fun c hc => digit_not_delim (List.all_eq_true.1 (pad5_all_digit i) c hc))
    (fun c hc => by
      have hd := all_head? hc (pad5_all_digit i)
      exact ⟨digit_not_ws hd, digit_ne_char hd '[' (by right; decide),
        digit_ne_char hd '#' (by left; decide),
        digit_ne_char hd ';' (by right; decide)⟩)
    (fun c hc => digit_not_ws (all_getLast? hc (pad5_all_digit i)))
    (fun c hc => by
      have h2 : ('=' :: n.data) = ['='] ++ n.data := rfl
      rw [h2, getLast?_append_right _ (goodId_ne_nil hg)] at hc
      exact goodId_last_not_ws hg c hc)
    (goodId_strip hg)
  rw [hres]
  have hkey : lowerKey ⟨(pad5 i).data⟩ = pad5 i :=
    lowerKey_digits (pad5_all_digit i)
  rw [hkey]

theorem parseLinesAux_countline (k : ℕ) (rest : List String)
    (s : String × Options) :
    parseLinesAux (("Count=" ++ natToDec k) :: rest) (some s) =
      parseLinesAux rest
        (some (s.1, s.2 ++ [(("count" : String), natToDec k)])) := by
  have hdata : ("Count=" ++ natToDec k).data =
      ['C', 'o', 'u', 'n', 't'] ++ '=' :: (natToDec k).data := by
    rw [sdata_append]
    rfl
  have hres := parseLinesAux_optline ("Count=" ++ natToDec k)
    ['C', 'o', 'u', 'n', 't'] (natToDec k) rest s hdata
    (by simp)
    (by decide)
    (fun c hc => by
      have hcC : c = 'C' := by
        have h2 : (['C', 'o', 'u', 'n', 't'] : List Char).head? = some 'C' :=
          rfl
        rw [h2] at hc
        exact (Option.some.inj hc).symm
      rw [hcC]
      refine ⟨by decide, by decide, by decide, by decide⟩)
    (fun c hc => by
      have hct : c = 't' := by
        have h2 : (['C', 'o', 'u', 'n', 't'] : List Char).getLast? =
            some 't' := rfl
        rw [h2] at hc
        exact (Option.some.inj hc).symm
      rw [hct]
      decide)
    (fun c hc => by
      have h2 : ('=' :: (natToDec k).data) = ['='] ++ (natToDec k).data := rfl
      rw [h2, getLast?_append_right _ (natToDec_ne_nil k)] at hc
      exact digit_not_ws (all_getLast? hc (natToDec_all_digit k)))
    (strip_digits (natToDec_all_digit k))
  rw [hres]
  have hkey : lowerKey ⟨['C', 'o', 'u', 'n', 't']⟩ = ("count" : String) := by
    decide
  rw [hkey]

/-- A written option line with a fixed letter key and a digit-string value:
it extends the current section by the lower-cased key and the value
unchanged.  The key-side conditions are decidable so each concrete key
discharges them by evaluation. -/
theorem parseLinesAux_keyline {line : String} {a : List Char} {val : String}
    {rest : List String} {s : String × Options}
    (hline : line.data = a ++ '=' :: val.data)
    (ha_ne : a ≠ [])
    (hand : ∀ c ∈ a, isDelimChar c = false)
    (hahead : ∀ c ∈ a.head?.toList,
      isPyWS c = false ∧ c ≠ '[' ∧ c ≠ '#' ∧ c ≠ ';')
    (halast : ∀ c ∈ a.getLast?.toList, isPyWS c = false)
    (hdig : val.data.all isDigitChar = true)
    (hvne : val.data ≠ []) :
    parseLinesAux (line :: rest) (some s) =
      parseLinesAux rest (some (s.1, s.2 ++ [(lowerKey ⟨a⟩, val)])) := by
  apply parseLinesAux_optline line a val rest s hline ha_ne hand
  · intro c hc
    exact hahead c (by simp [hc])
  · intro c hc
    exact halast c (by simp [hc])
  · intro c hc
    rw [show ('=' :: val.data) = ['='] ++ val.data from rfl,
      getLast?_append_right _ hvne] at hc
    exact digit_not_ws (all_getLast? hc hdig)
  · exact strip_digits hdig

theorem parseLinesAux_trophyheader (id : String) (hid : id.data ≠ [])
    (rest : List String) (cur : Option (String × Options)) :
    parseLinesAux (("[" ++ id ++ "]") :: rest) cur =
      flushCur cur ++ parseLinesAux rest (some (id, [])) := by
  apply parseLinesAux_secline _ id rest cur ?_ hid
  rw [sdata_append, sdata_append]
  simp

theorem parseLinesAux_steamheader (rest : List String) :
    parseLinesAux (("[SteamAchievements]" : String) :: rest) none =
      parseLinesAux rest (some (("SteamAchievements" : String), [])) := by
  have h := parseLinesAux_secline ("[SteamAchievements]")
    ("SteamAchievements") rest none (by decide) (by decide)
  simpa [flushCur] using h

theorem parseLinesAux_ixlines :
    ∀ (names : List String) (i : ℕ) (rest : List String)
      (s : String × Options), (∀ n ∈ names, goodId n) →
      parseLinesAux (indexLines i names ++ rest) (some s) =
        parseLinesAux rest (some (s.1, s.2 ++ ixOpts i names)) := by
  intro names
  induction names with
  | nil =>
    intro i rest s _
    simp [indexLines, ixOpts]
  | cons n ns ih =>
    intro i rest s hgood
    simp only [indexLines, List.cons_append]
    rw [parseLinesAux_ixline i n (hgood n (List.mem_cons_self n ns)) _ s]
    rw [ih (i + 1) rest _ (fun m hm => hgood m (List.mem_cons_of_mem n hm))]
    simp [ixOpts, List.append_assoc]

/-! ### Parsing the written target file -/

/-- Parsing the per-trophy blocks of a written target file appends one
section with the four written options per trophy, in order. -/
theorem parseLinesAux_blocks :
    ∀ (src : List (String × TrophyData)) (s : String × Options),
      (∀ p ∈ src, goodId p.1) →
      parseLinesAux
          (src.flatMap (fun p =>
            ["[" ++ p.1 ++ "]",
             "Achieved=" ++ natToDec p.2.achieved,
             "CurProgress=0",
             "MaxProgress=0",
             "UnlockTime=" ++ natToDec p.2.unlockTime,
             ""])) (some s) =
        s :: src.map (fun p => (p.1, trophyOpts p)) := by
  intro src
  induction src with
  | nil =>
    intro s _
    rfl
  | cons p ps ih =>
    intro s hgood
    have hg := hgood p (List.mem_cons_self p ps)
    simp only [List.flatMap_cons, List.cons_append, List.nil_append]
    rw [parseLinesAux_trophyheader p.1 (goodId_ne_nil hg)]
    rw [parseLinesAux_keyline
      (show ("Achieved=" ++ natToDec p.2.achieved).data =
        ['A', 'c', 'h', 'i', 'e', 'v', 'e', 'd'] ++
          '=' :: (natToDec p.2.achieved).data from by
        rw [sdata_append]; rfl)
      (by simp) (by decide) (by decide) (by decide)
      (natToDec_all_digit p.2.achieved) (natToDec_ne_nil p.2.achieved)]
    rw [parseLinesAux_keyline
      (show ("CurProgress=0" : String).data =
        ['C', 'u', 'r', 'P', 'r', 'o', 'g', 'r', 'e', 's', 's'] ++
          '=' :: ("0" : String).data from by decide)
      (by simp) (by decide) (by decide) (by decide) (by decide) (by decide)]
    rw [parseLinesAux_keyline
      (show ("MaxProgress=0" : String).data =
        ['M', 'a', 'x', 'P', 'r', 'o', 'g', 'r', 'e', 's', 's'] ++
          '=' :: ("0" : String).data from by decide)
      (by simp) (by decide) (by decide) (by decide) (by decide) (by decide)]
    rw [parseLinesAux_keyline
      (show ("UnlockTime=" ++ natToDec p.2.unlockTime).data =
        ['U', 'n', 'l', 'o', 'c', 'k', 'T', 'i', 'm', 'e'] ++
          '=' :: (natToDec p.2.unlockTime).data from by
        rw [sdata_append]; rfl)
      (by simp) (by decide) (by decide) (by decide)
      (natToDec_all_digit p.2.unlockTime) (natToDec_ne_nil p.2.unlockTime)]
    rw [parseLinesAux_cons_blank]
    rw [show lowerKey ⟨['A', 'c', 'h', 'i', 'e', 'v', 'e', 'd']⟩ =
      ("achieved" : String) from by decide]
    rw [show lowerKey ⟨['C', 'u', 'r', 'P', 'r', 'o', 'g', 'r', 'e', 's', 's']⟩ =
      ("curprogress" : String) from by decide]
    rw [show lowerKey ⟨['M', 'a', 'x', 'P', 'r', 'o', 'g', 'r', 'e', 's', 's']⟩ =
      ("maxprogress" : String) from by decide]
    rw [show lowerKey ⟨['U', 'n', 'l', 'o', 'c', 'k', 'T', 'i', 'm', 'e']⟩ =
      ("unlocktime" : String) from by decide]
    rw [ih _ (fun q hq => hgood q (List.mem_cons_of_mem p hq))]
    simp [flushCur, trophyOpts]

theorem parseLines_target (src : List (String × TrophyData))
    (hgood : ∀ p ∈ src, goodId p.1) :
    parseLines (targetSpecLines src) =
      (("SteamAchievements" : String),
        ixOpts 0 (src.map Prod.fst) ++
          [(("count" : String), natToDec src.length)]) ::
        src.map (fun p => (p.1, trophyOpts p)) := by
  have hgood2 : ∀ n ∈ src.map Prod.fst, goodId n := by
    intro n hn
    rcases List.mem_map.1 hn with ⟨p, hp, rfl⟩
    exact hgood p hp
  unfold parseLines targetSpecLines
  simp only [List.cons_append, List.append_assoc]
  rw [parseLinesAux_steamheader]
  rw [parseLinesAux_ixlines (src.map Prod.fst) 0 _ _ hgood2]
  simp only [List.nil_append]
  rw [parseLinesAux_countline]
  rw [parseLinesAux_cons_blank]
  rw [parseLinesAux_blocks src _ hgood]

/-- `config.read` on a written target file leaves an empty `[DEFAULT]`
table — no written section is named `DEFAULT` — and keeps every section. -/
theorem readConfig_target (src : List (String × TrophyData))
    (hgood : ∀ p ∈ src, goodId p.1) :
    readConfig (targetSpecLines src) =
      ([], (("SteamAchievements" : String),
          ixOpts 0 (src.map Prod.fst) ++
            [(("count" : String), natToDec src.length)]) ::
          src.map (fun p => (p.1, trophyOpts p))) := by
  simp only [readConfig]
  rw [parseLines_target src hgood]
  have hnames : ∀ x ∈ (("SteamAchievements" : String),
      ixOpts 0 (src.map Prod.fst) ++
        [(("count" : String), natToDec src.length)]) ::
      src.map (fun p => (p.1, trophyOpts p)),
      (x.1 == ("DEFAULT" : String)) = false := by
    intro x hx
    rcases List.mem_cons.1 hx with rfl | hx2
    · show (("SteamAchievements" : String) == ("DEFAULT" : String)) = false
      decide
    · rcases List.mem_map.1 hx2 with ⟨p, hp, rfl⟩
      exact goodId_ne_default (hgood p hp)
  have hfil1 : ((("SteamAchievements" : String),
      ixOpts 0 (src.map Prod.fst) ++
        [(("count" : String), natToDec src.length)]) ::
      src.map (fun p => (p.1, trophyOpts p))).filter
      (fun s => s.1 == ("DEFAULT" : String)) = [] := by
    rw [List.filter_eq_nil_iff]
    intro x hx
    rw [hnames x hx]
    simp
  have hfil2 : ((("SteamAchievements" : String),
      ixOpts 0 (src.map Prod.fst) ++
        [(("count" : String), natToDec src.length)]) ::
      src.map (fun p => (p.1, trophyOpts p))).filter
      (fun s => !(s.1 == ("DEFAULT" : String))) =
      (("SteamAchievements" : String),
        ixOpts 0 (src.map Prod.fst) ++
          [(("count" : String), natToDec src.length)]) ::
        src.map (fun p => (p.1, trophyOpts p)) := by
    rw [List.filter_eq_self]
    intro x hx
    rw [hnames x hx]
    rfl
  rw [hfil1, hfil2]
  rfl

/-! ### Reading back the index section -/

theorem pad5_ne_count (j : ℕ) : ((pad5 j) == ("count" : String)) = false := by
  rw [beq_eq_false_iff_ne]
  intro h
  have h1 := parseNat_pad5 j
  rw [h] at h1
  have h2 : parseNat ("count") = none := by decide
  rw [h2] at h1
  exact absurd h1 (by simp)

theorem find?_ixOpts_count : ∀ (names : List String) (i : ℕ),
    (ixOpts i names).find? (fun p => p.1 == ("count" : String)) = none := by
  intro names
  induction names with
  | nil => intro i; rfl
  | cons n ns ih =>
    intro i
    simp only [ixOpts, List.find?_cons, pad5_ne_count i]
    exact ih (i + 1)

theorem find?_ixOpts_pad5 :
    ∀ (names : List String) (k i : ℕ) (h : i < names.length),
      (ixOpts k names).find? (fun p => p.1 == pad5 (k + i)) =
        some (pad5 (k + i), names.get ⟨i, h⟩) := by
  intro names
  induction names with
  | nil =>
    intro k i h
    simp at h
  | cons n ns ih =>
    intro k i h
    cases i with
    | zero =>
      simp only [Nat.add_zero, ixOpts, List.find?_cons, beq_self_eq_true]
      rfl
    | succ j =>
      have hne : (pad5 k == pad5 (k + (j + 1))) = false := by
        rw [beq_eq_false_iff_ne]
        intro he
        have := pad5_injective he
        omega
      simp only [ixOpts, List.find?_cons, hne]
      have hj : j < ns.length := by
        simp only [List.length_cons] at h
        omega
      have hih := ih (k + 1) j hj
      rw [show k + 1 + j = k + (j + 1) from by omega] at hih
      rw [hih]
      rfl

theorem loadLoopAux_append (d own : Options) :
    ∀ (l1 l2 : List ℕ) (acc : List String),
      (∀ i ∈ l1, pyGet d own (pad5 i) ≠ GetResult.error) →
      loadLoopAux d own (l1 ++ l2) acc =
        loadLoopAux d own l2 (loadLoopAux d own l1 acc) := by
  intro l1
  induction l1 with
  | nil =>
    intro l2 acc _
    rfl
  | cons i t ih =>
    intro l2 acc h
    have hi := h i (List.mem_cons_self i t)
    have ht := fun j hj => h j (List.mem_cons_of_mem i hj)
    simp only [List.cons_append, loadLoopAux]
    cases hp : pyGet d own (pad5 i) with
    | error => exact absurd hp hi
    | missing => exact ih l2 acc ht
    | value name =>
      show (if name = "" then loadLoopAux d own (t ++ l2) acc
          else loadLoopAux d own (t ++ l2) (acc ++ [name])) =
        loadLoopAux d own l2
          (if name = "" then loadLoopAux d own t acc
           else loadLoopAux d own t (acc ++ [name]))
      by_cases hname : name = ""
      · rw [if_pos hname, if_pos hname]
        exact ih l2 acc ht
      · rw [if_neg hname, if_neg hname]
        exact ih l2 (acc ++ [name]) ht

theorem loadLoopAux_range (d own : Options) (names : List String)
    (hget : ∀ (i : ℕ) (h : i < names.length),
      pyGet d own (pad5 i) = GetResult.value (names.get ⟨i, h⟩))
    (hne : ∀ (i : ℕ) (h : i < names.length), names.get ⟨i, h⟩ ≠ "") :
    ∀ m, m ≤ names.length →
      loadLoopAux d own (List.range m) [] = names.take m := by
  intro m
  induction m with
  | zero =>
    intro _
    rw [List.range_zero, List.take_zero]
    rfl
  | succ m ihm =>
    intro hm
    have hnoerr : ∀ i ∈ List.range m,
        pyGet d own (pad5 i) ≠ GetResult.error := by
      intro i hi
      have hilt : i < names.length := by
        have := List.mem_range.1 hi
        omega
      rw [hget i hilt]
      intro hcon
      exact GetResult.noConfusion hcon
    rw [List.range_succ,
      loadLoopAux_append d own (List.range m) [m] [] hnoerr,
      ihm (by omega)]
    simp only [loadLoopAux, hget m (by omega)]
    rw [if_neg (hne m (by omega))]
    rw [List.take_succ]
    congr 1
    rw [List.getElem?_eq_getElem (by omega)]
    rfl

theorem load_roundtrip (src : List (String × TrophyData))
    (hgood : ∀ p ∈ src, goodId p.1) :
    load_existing_trophies (targetSpecLines src) = src.map Prod.fst := by
  simp only [load_existing_trophies]
  rw [readConfig_target src hgood]
  dsimp only
  have hhassec : hasSection
      ((("SteamAchievements" : String),
        ixOpts 0 (src.map Prod.fst) ++
          [(("count" : String), natToDec src.length)]) ::
        src.map (fun p => (p.1, trophyOpts p)))
      ("SteamAchievements") = true := by
    simp [hasSection]
  rw [if_pos hhassec]
  have hfind : cfgFind
      ((("SteamAchievements" : String),
        ixOpts 0 (src.map Prod.fst) ++
          [(("count" : String), natToDec src.length)]) ::
        src.map (fun p => (p.1, trophyOpts p)))
      ("SteamAchievements") =
      some (ixOpts 0 (src.map Prod.fst) ++
        [(("count" : String), natToDec src.length)]) := by
    simp [cfgFind, List.find?_cons]
  rw [hfind]
  simp only [Option.getD_some]
  have hpyc : pyGet [] (ixOpts 0 (src.map Prod.fst) ++
      [(("count" : String), natToDec src.length)]) ("Count") =
      GetResult.value (natToDec src.length) := by
    have hf2 : (interpEnv [] (ixOpts 0 (src.map Prod.fst) ++
        [(("count" : String), natToDec src.length)])).find?
        (fun p => p.1 == lowerKey ("Count")) =
        some (("count" : String), natToDec src.length) := by
      rw [interpEnv_nil,
        show lowerKey ("Count") = ("count" : String) from by decide,
        List.find?_append, find?_ixOpts_count (src.map Prod.fst) 0]
      simp [List.find?_cons]
    exact pyGet_of_find hf2 (natToDec_no_pct src.length)
  simp only [hpyc]
  rw [parseNat_natToDec]
  dsimp only
  have hgeti : ∀ (i : ℕ) (h : i < (src.map Prod.fst).length),
      pyGet [] (ixOpts 0 (src.map Prod.fst) ++
        [(("count" : String), natToDec src.length)]) (pad5 i) =
      GetResult.value ((src.map Prod.fst).get ⟨i, h⟩) := by
    intro i h
    have h0 := find?_ixOpts_pad5 (src.map Prod.fst) 0 i h
    rw [show (0 + i) = i from by omega] at h0
    have hf2 : (interpEnv [] (ixOpts 0 (src.map Prod.fst) ++
        [(("count" : String), natToDec src.length)])).find?
        (fun p => p.1 == lowerKey (pad5 i)) =
        some (pad5 i, (src.map Prod.fst).get ⟨i, h⟩) := by
      rw [interpEnv_nil, lowerKey_digits (pad5_all_digit i),
        List.find?_append, h0]
      rfl
    have hmem : (src.map Prod.fst).get ⟨i, h⟩ ∈ src.map Prod.fst :=
      List.get_mem _ i h
    rcases List.mem_map.1 hmem with ⟨p, hp, hpe⟩
    have hpct : ∀ c ∈ ((src.map Prod.fst).get ⟨i, h⟩).data, c ≠ '%' := by
      rw [← hpe]
      exact goodId_no_pct (hgood p hp)
    exact pyGet_of_find hf2 hpct
  have hne_i : ∀ (i : ℕ) (h : i < (src.map Prod.fst).length),
      (src.map Prod.fst).get ⟨i, h⟩ ≠ "" := by
    intro i h he
    have hmem : (src.map Prod.fst).get ⟨i, h⟩ ∈ src.map Prod.fst :=
      List.get_mem _ i h
    rcases List.mem_map.1 hmem with ⟨p, hp, hpe⟩
    have hg := goodId_ne_nil (hgood p hp)
    rw [hpe, he] at hg
    exact hg rfl
  have hres := loadLoopAux_range []
    (ixOpts 0 (src.map Prod.fst) ++
      [(("count" : String), natToDec src.length)])
    (src.map Prod.fst) hgeti hne_i src.length (by simp)
  rw [show (src.map Prod.fst).take src.length = src.map Prod.fst from by
    rw [show src.length = (src.map Prod.fst).length from by simp,
      List.take_length]] at hres
  exact hres

/-! ### Claim C4: the round trip through the target file -/

/-- Claim C4 as stated is false: `configparser` strips option values, so an
identifier with a trailing blank comes back without it.  At the concrete
list holding the single trophy `"Trophy_A "` the loader returns
`["Trophy_A"]`. -/
theorem c4_roundtrip_refuted :
    load_existing_trophies
        (syncWriteLines [] [] [(("Trophy_A " : String), ⟨1, 5⟩)]) ≠
      ([(("Trophy_A " : String), (⟨1, 5⟩ : TrophyData))]).map Prod.fst := by
  decide

/-- Claim C4, amended: for every ordered list of trophies with distinct
identifiers that keep the `Trophy_` section convention, consist of printable
ASCII other than the percent sign and do not end in a blank, writing the
target file and loading known identifiers from it recovers exactly the
identifiers, in the same order (a `%` in an identifier would instead make
the loader's `config.get` raise `InterpolationSyntaxError`). -/
theorem c4_roundtrip_amended (src : List (String × TrophyData))
    (priorDefaults : Options) (prior : Config)
    (hnd : (src.map Prod.fst).Nodup)
    (hgood : ∀ p ∈ src, goodId p.1) :
    load_existing_trophies (syncWriteLines priorDefaults prior src) =
      src.map Prod.fst := by
  rw [syncWriteLines_eq priorDefaults prior src hnd]
  exact load_roundtrip src hgood

/-- Witness for the amended C4 at a concrete two-trophy list. -/
theorem c4_roundtrip_amended_witness :
    ((([("Trophy_A", ⟨1, 1770437296⟩), ("Trophy_B", ⟨0, 12⟩)] :
        List (String × TrophyData)).map Prod.fst).Nodup ∧
      (∀ p ∈ ([("Trophy_A", ⟨1, 1770437296⟩), ("Trophy_B", ⟨0, 12⟩)] :
        List (String × TrophyData)), goodId p.1)) ∧
      load_existing_trophies (syncWriteLines [] []
          [("Trophy_A", ⟨1, 1770437296⟩), ("Trophy_B", ⟨0, 12⟩)]) =
        ([("Trophy_A", ⟨1, 1770437296⟩), ("Trophy_B", ⟨0, 12⟩)] :
          List (String × TrophyData)).map Prod.fst :=
  ⟨⟨by decide, by decide⟩,
    c4_roundtrip_amended
      [("Trophy_A", ⟨1, 1770437296⟩), ("Trophy_B", ⟨0, 12⟩)] [] []
      (by decide) (by decide)⟩

end AchievementSync
